import Mathlib

/-!
# Verification of the QR-code generator's configuration and cache core

A shallow embedding, in Lean 4, of the domain value objects, the configuration
aggregate, the parameter-validation use case and the in-memory cache of the
`api-gen-qr-code` repository, together with theorems settling the frozen claims
about them.

Modelling conventions:
* JavaScript strings are modelled as Lean `String` (sequences of Unicode scalar
  values); `String.length` counts scalar values where JS counts UTF-16 units
  (identical for all inputs used in counterexamples and witnesses here).
* JavaScript numbers that the code validates with `Number.isInteger` are
  modelled as `Int`/`Nat`; the integrality check is subsumed by the type.
* Fallible constructors (`throw` in TS) return `Except String _`.
* `Date.now()` is passed in explicitly as a `Nat` millisecond clock.
-/

namespace QRSpec

/-! ### Decimal digit strings (model of `Number.prototype.toString()` on integers) -/

/-- Little-endian decimal digits of `n`, computed with structural fuel so the
kernel can evaluate it.  `digitsRevGo n n` is the digit list of `n`. -/
def digitsRevGo : Nat → Nat → List Nat
  | _, 0 => []
  | 0, _ + 1 => []
  | fuel + 1, n + 1 => (n + 1) % 10 :: digitsRevGo fuel ((n + 1) / 10)

def digitsRev (n : Nat) : List Nat := digitsRevGo n n

/-- Value of a little-endian decimal digit list. -/
def decValue : List Nat → Nat
  | [] => 0
  | d :: ds => d + 10 * decValue ds

theorem decValue_digitsRevGo (fuel : Nat) : ∀ n, n ≤ fuel → decValue (digitsRevGo fuel n) = n := by
  induction fuel with
  | zero =>
    intro n h
    have hn : n = 0 := by omega
    subst hn
    rfl
  | succ f ih =>
    intro n h
    cases n with
    | zero => rfl
    | succ m =>
      simp only [digitsRevGo, decValue]
      rw [ih ((m + 1) / 10) (by omega)]
      omega

theorem decValue_digitsRev (n : Nat) : decValue (digitsRev n) = n :=
  decValue_digitsRevGo n n (Nat.le_refl n)

theorem digitsRev_inj {m n : Nat} (h : digitsRev m = digitsRev n) : m = n := by
  have hm := decValue_digitsRev m
  have hn := decValue_digitsRev n
  rw [h] at hm
  omega

theorem digitsRevGo_lt (fuel : Nat) : ∀ n, ∀ d ∈ digitsRevGo fuel n, d < 10 := by
  induction fuel with
  | zero =>
    intro n d hd
    cases n with
    | zero => simp [digitsRevGo] at hd
    | succ m => simp [digitsRevGo] at hd
  | succ f ih =>
    intro n d hd
    cases n with
    | zero => simp [digitsRevGo] at hd
    | succ m =>
      simp only [digitsRevGo, List.mem_cons] at hd
      rcases hd with hd | hd
      · omega
      · exact ih _ d hd

theorem digitsRev_ne_nil {n : Nat} (h : 0 < n) : digitsRev n ≠ [] := by
  intro hnil
  have := decValue_digitsRev n
  rw [hnil] at this
  simp [decValue] at this
  omega

/-- Decimal digit character (`'0'`-`'9'`). -/
def digitChar (d : Nat) : Char := "0123456789".data.getD d '*'

theorem digitChar_inj : ∀ d1 < 10, ∀ d2 < 10, digitChar d1 = digitChar d2 → d1 = d2 := by decide

theorem digitChar_isDigit : ∀ d < 10, (digitChar d).isDigit = true := by decide

/-- Big-endian decimal digits, with `[0]` for zero. -/
def decDigits (n : Nat) : List Nat :=
  if n = 0 then [0] else (digitsRev n).reverse

/-- Decimal string for a natural number, as produced by JS `toString()`. -/
def natStr (n : Nat) : List Char := (decDigits n).map digitChar

theorem decDigits_lt (n : Nat) : ∀ d ∈ decDigits n, d < 10 := by
  intro d hd
  unfold decDigits at hd
  split at hd
  · simp at hd
    omega
  · rw [List.mem_reverse] at hd
    exact digitsRevGo_lt n n d hd

theorem decDigits_inj {m n : Nat} (h : decDigits m = decDigits n) : m = n := by
  unfold decDigits at h
  by_cases hm : m = 0 <;> by_cases hn : n = 0
  · omega
  · exfalso
    simp only [if_pos hm, if_neg hn] at h
    have hv := decValue_digitsRev n
    rw [← List.reverse_reverse (digitsRev n), ← h] at hv
    simp [decValue] at hv
    omega
  · exfalso
    simp only [if_neg hm, if_pos hn] at h
    have hv := decValue_digitsRev m
    rw [← List.reverse_reverse (digitsRev m), h] at hv
    simp [decValue] at hv
    omega
  · simp only [if_neg hm, if_neg hn] at h
    exact digitsRev_inj (List.reverse_injective h)

theorem map_digitChar_inj : ∀ (l1 l2 : List Nat), (∀ d ∈ l1, d < 10) → (∀ d ∈ l2, d < 10) →
    l1.map digitChar = l2.map digitChar → l1 = l2 := by
  intro l1
  induction l1 with
  | nil =>
    intro l2 _ _ h
    cases l2 with
    | nil => rfl
    | cons x xs => simp at h
  | cons d ds ih =>
    intro l2 h1 h2 h
    cases l2 with
    | nil => simp at h
    | cons e es =>
      simp only [List.map_cons, List.cons.injEq] at h
      have hd : d = e := digitChar_inj d (h1 d (by simp)) e (h2 e (by simp)) h.1
      have hds : ds = es := ih es (fun x hx => h1 x (by simp [hx])) (fun x hx => h2 x (by simp [hx])) h.2
      rw [hd, hds]

theorem natStr_inj {m n : Nat} (h : natStr m = natStr n) : m = n :=
  decDigits_inj (map_digitChar_inj _ _ (decDigits_lt m) (decDigits_lt n) h)

theorem natStr_isDigit (n : Nat) : ∀ c ∈ natStr n, c.isDigit = true := by
  intro c hc
  unfold natStr at hc
  rw [List.mem_map] at hc
  obtain ⟨d, hd, hdc⟩ := hc
  rw [← hdc]
  exact digitChar_isDigit d (decDigits_lt n d hd)

/-- Decimal string of a JS integer, including the `-` sign. -/
def intStr (i : Int) : List Char :=
  if i < 0 then '-' :: natStr (-i).toNat else natStr i.toNat

theorem intStr_inj {i j : Int} (h : intStr i = intStr j) : i = j := by
  unfold intStr at h
  split at h <;> split at h
  · simp only [List.cons.injEq, true_and] at h
    have := natStr_inj h
    omega
  · exfalso
    have h0 : '-' ∈ natStr j.toNat := by
      rw [← h]
      simp
    have := natStr_isDigit j.toNat '-' h0
    simp [Char.isDigit] at this
  · exfalso
    have h0 : '-' ∈ natStr i.toNat := by
      rw [h]
      simp
    have := natStr_isDigit i.toNat '-' h0
    simp [Char.isDigit] at this
  · have := natStr_inj h
    omega

theorem intStr_not_x (i : Int) : ∀ c ∈ intStr i, c ≠ 'x' := by
  intro c hc hx
  unfold intStr at hc
  subst hx
  split at hc
  · rcases List.mem_cons.mp hc with h | h
    · exact absurd h (by decide)
    · have := natStr_isDigit _ _ h
      simp [Char.isDigit] at this
  · have := natStr_isDigit _ _ hc
    simp [Char.isDigit] at this

/-! ### Hexadecimal byte strings (model of `n.toString(16).padStart(2, '0')` for `n < 256`) -/

def hexDigitChar (d : Nat) : Char := "0123456789abcdef".data.getD d '*'

theorem hexDigitChar_inj : ∀ d1 < 16, ∀ d2 < 16, hexDigitChar d1 = hexDigitChar d2 → d1 = d2 := by
  decide

/-- The two-hex-digit form of a byte; for `n < 256` this equals JS
`n.toString(16).padStart(2, '0')`. -/
def hexByte (n : Nat) : List Char := [hexDigitChar (n / 16), hexDigitChar (n % 16)]

theorem hexByte_inj {m n : Nat} (hm : m < 256) (hn : n < 256) (h : hexByte m = hexByte n) :
    m = n := by
  unfold hexByte at h
  simp only [List.cons.injEq, and_true] at h
  have h1 := hexDigitChar_inj (m / 16) (by omega) (n / 16) (by omega) h.1
  have h2 := hexDigitChar_inj (m % 16) (by omega) (n % 16) (by omega) h.2
  omega

/-! ### UTF-8 encoding (model of `Buffer.from(string)`) -/

/-- UTF-8 byte sequence of a Unicode scalar value `n < 0x110000`. -/
def utf8Bytes (n : Nat) : List Nat :=
  if n < 128 then [n]
  else if n < 2048 then [192 + n / 64, 128 + n % 64]
  else if n < 65536 then [224 + n / 4096, 128 + n / 64 % 64, 128 + n % 64]
  else [240 + n / 262144, 128 + n / 4096 % 64, 128 + n / 64 % 64, 128 + n % 64]

def utf8Encode : List Char → List Nat
  | [] => []
  | c :: cs => utf8Bytes c.toNat ++ utf8Encode cs

theorem char_toNat_lt (c : Char) : c.toNat < 1114112 := by
  have h := c.valid
  simp only [UInt32.isValidChar, Nat.isValidChar] at h
  have he : c.toNat = c.val.toNat := rfl
  rcases h with h | ⟨h1, h2⟩ <;> omega

theorem utf8Bytes_lt (n : Nat) (hn : n < 1114112) : ∀ b ∈ utf8Bytes n, b < 256 := by
  intro b hb
  unfold utf8Bytes at hb
  split at hb
  · simp at hb
    omega
  · split at hb
    · simp at hb
      omega
    · split at hb
      · simp at hb
        omega
      · simp at hb
        omega

theorem utf8Bytes_ne_nil (n : Nat) : utf8Bytes n ≠ [] := by
  unfold utf8Bytes
  split
  · simp
  · split
    · simp
    · split <;> simp

theorem utf8Bytes_head_inj {m n : Nat} (hm : m < 1114112) (hn : n < 1114112)
    {t s : List Nat} (h : utf8Bytes m ++ t = utf8Bytes n ++ s) : m = n ∧ t = s := by
  unfold utf8Bytes at h
  split_ifs at h <;>
    simp only [List.cons_append, List.nil_append, List.cons.injEq] at h
  · exact ⟨by omega, h.2⟩
  · obtain ⟨he, -⟩ := h
    exact absurd he (by omega)
  · obtain ⟨he, -⟩ := h
    exact absurd he (by omega)
  · obtain ⟨he, -⟩ := h
    exact absurd he (by omega)
  · obtain ⟨he, -⟩ := h
    exact absurd he (by omega)
  · obtain ⟨e1, e2, e3⟩ := h
    exact ⟨by omega, e3⟩
  · obtain ⟨he, -⟩ := h
    exact absurd he (by omega)
  · obtain ⟨he, -⟩ := h
    exact absurd he (by omega)
  · obtain ⟨he, -⟩ := h
    exact absurd he (by omega)
  · obtain ⟨he, -⟩ := h
    exact absurd he (by omega)
  · obtain ⟨e1, e2, e3, e4⟩ := h
    exact ⟨by omega, e4⟩
  · obtain ⟨he, -⟩ := h
    exact absurd he (by omega)
  · obtain ⟨he, -⟩ := h
    exact absurd he (by omega)
  · obtain ⟨he, -⟩ := h
    exact absurd he (by omega)
  · obtain ⟨he, -⟩ := h
    exact absurd he (by omega)
  · obtain ⟨e1, e2, e3, e4, e5⟩ := h
    exact ⟨by omega, e5⟩

theorem utf8Encode_eq_nil {l : List Char} (h : utf8Encode l = []) : l = [] := by
  cases l with
  | nil => rfl
  | cons c cs =>
    exfalso
    simp only [utf8Encode] at h
    rcases List.append_eq_nil.mp h with ⟨h1, _⟩
    exact utf8Bytes_ne_nil _ h1

theorem utf8Encode_inj : ∀ l1 l2 : List Char, utf8Encode l1 = utf8Encode l2 → l1 = l2 := by
  intro l1
  induction l1 with
  | nil =>
    intro l2 h
    exact (utf8Encode_eq_nil h.symm).symm
  | cons c cs ih =>
    intro l2 h
    cases l2 with
    | nil =>
      exact absurd (utf8Encode_eq_nil h) (by simp)
    | cons d ds =>
      simp only [utf8Encode] at h
      obtain ⟨hcd, hrest⟩ := utf8Bytes_head_inj (char_toNat_lt c) (char_toNat_lt d) h
      have hc : c = d := by
        apply Char.eq_of_val_eq
        apply UInt32.eq_of_toBitVec_eq
        exact BitVec.eq_of_toNat_eq hcd
      rw [hc, ih ds hrest]

/-! ### Base64 encoding (model of `Buffer.prototype.toString('base64')`) -/

def b64Alphabet : List Char :=
  "ABCDEFGHIJKLMNOPQRSTUVWXYZabcdefghijklmnopqrstuvwxyz0123456789+/".data

def sextetChar (n : Nat) : Char := b64Alphabet.getD n '*'

theorem sextetChar_inj : ∀ m < 64, ∀ n < 64, sextetChar m = sextetChar n → m = n := by decide

theorem sextetChar_ne_pad : ∀ n < 64, sextetChar n ≠ '=' := by decide

/-- Standard base64 with `=` padding, three input bytes per four output chars. -/
def b64Encode : List Nat → List Char
  | [] => []
  | [a] => [sextetChar (a / 4), sextetChar (a % 4 * 16), '=', '=']
  | [a, b] => [sextetChar (a / 4), sextetChar (a % 4 * 16 + b / 16), sextetChar (b % 16 * 4), '=']
  | a :: b :: c :: rest =>
      sextetChar (a / 4) :: sextetChar (a % 4 * 16 + b / 16) :: sextetChar (b % 16 * 4 + c / 64) ::
        sextetChar (c % 64) :: b64Encode rest

theorem b64Encode_eq_nil : ∀ {l : List Nat}, b64Encode l = [] → l = []
  | [], _ => rfl
  | [_], h => by simp [b64Encode] at h
  | [_, _], h => by simp [b64Encode] at h
  | _ :: _ :: _ :: _, h => by simp [b64Encode] at h

theorem b64Encode_inj : ∀ l1 l2 : List Nat, (∀ x ∈ l1, x < 256) → (∀ x ∈ l2, x < 256) →
    b64Encode l1 = b64Encode l2 → l1 = l2 := by
  intro l1
  induction l1 using b64Encode.induct with
  | case1 =>
    intro l2 _ _ h
    exact (b64Encode_eq_nil h.symm).symm
  | case2 a =>
    intro l2 hb1 hb2 h
    have ha : a < 256 := hb1 a (by simp)
    match l2 with
    | [] => simp [b64Encode] at h
    | [x] =>
      have hx : x < 256 := hb2 x (by simp)
      simp only [b64Encode, List.cons.injEq, eq_self_iff_true, true_and, and_true,
        and_self] at h
      have q1 := sextetChar_inj _ (by omega) _ (by omega) h.1
      have q2 := sextetChar_inj _ (by omega) _ (by omega) h.2
      have : a = x := by omega
      rw [this]
    | [x, y] =>
      have hy : y < 256 := hb2 y (by simp)
      simp only [b64Encode, List.cons.injEq, eq_self_iff_true, true_and, and_true,
        and_self] at h
      exact absurd h.2.2.symm (sextetChar_ne_pad _ (by omega))
    | x :: y :: z :: rest =>
      have hz : z < 256 := hb2 z (by simp)
      simp only [b64Encode, List.cons.injEq, eq_self_iff_true, true_and, and_true,
        and_self] at h
      exact absurd h.2.2.2.1.symm (sextetChar_ne_pad _ (by omega))
  | case3 a b =>
    intro l2 hb1 hb2 h
    have ha : a < 256 := hb1 a (by simp)
    have hb : b < 256 := hb1 b (by simp)
    match l2 with
    | [] => simp [b64Encode] at h
    | [x] =>
      have hx : x < 256 := hb2 x (by simp)
      simp only [b64Encode, List.cons.injEq, eq_self_iff_true, true_and, and_true,
        and_self] at h
      exact absurd h.2.2 (sextetChar_ne_pad _ (by omega))
    | [x, y] =>
      have hx : x < 256 := hb2 x (by simp)
      have hy : y < 256 := hb2 y (by simp)
      simp only [b64Encode, List.cons.injEq, eq_self_iff_true, true_and, and_true,
        and_self] at h
      have q1 := sextetChar_inj _ (by omega) _ (by omega) h.1
      have q2 := sextetChar_inj _ (by omega) _ (by omega) h.2.1
      have q3 := sextetChar_inj _ (by omega) _ (by omega) h.2.2
      have hax : a = x := by omega
      have hby : b = y := by omega
      rw [hax, hby]
    | x :: y :: z :: rest =>
      have hz : z < 256 := hb2 z (by simp)
      simp only [b64Encode, List.cons.injEq, eq_self_iff_true, true_and, and_true,
        and_self] at h
      exact absurd h.2.2.2.1.symm (sextetChar_ne_pad _ (by omega))
  | case4 a b c rest ih =>
    intro l2 hb1 hb2 h
    have ha : a < 256 := hb1 a (by simp)
    have hb : b < 256 := hb1 b (by simp)
    have hc : c < 256 := hb1 c (by simp)
    match l2 with
    | [] => simp [b64Encode] at h
    | [x] =>
      have hx : x < 256 := hb2 x (by simp)
      simp only [b64Encode, List.cons.injEq, eq_self_iff_true, true_and, and_true,
        and_self] at h
      exact absurd h.2.2.1 (sextetChar_ne_pad _ (by omega))
    | [x, y] =>
      have hy : y < 256 := hb2 y (by simp)
      simp only [b64Encode, List.cons.injEq, eq_self_iff_true, true_and, and_true,
        and_self] at h
      exact absurd h.2.2.2.1 (sextetChar_ne_pad _ (by omega))
    | x :: y :: z :: rest2 =>
      have hx : x < 256 := hb2 x (by simp)
      have hy : y < 256 := hb2 y (by simp)
      have hz : z < 256 := hb2 z (by simp)
      simp only [b64Encode, List.cons.injEq, eq_self_iff_true, true_and, and_true,
        and_self] at h
      have q1 := sextetChar_inj _ (by omega) _ (by omega) h.1
      have q2 := sextetChar_inj _ (by omega) _ (by omega) h.2.1
      have q3 := sextetChar_inj _ (by omega) _ (by omega) h.2.2.1
      have q4 := sextetChar_inj _ (by omega) _ (by omega) h.2.2.2.1
      have hax : a = x := by omega
      have hby : b = y := by omega
      have hcz : c = z := by omega
      have htail : rest = rest2 :=
        ih rest2 (fun v hv => hb1 v (by simp [hv])) (fun v hv => hb2 v (by simp [hv])) h.2.2.2.2
      rw [hax, hby, hcz, htail]

/-! ### List splitting helpers -/

/-- Splitting at a single occurrence of a separator absent from both prefixes is
unambiguous. -/
theorem sep_split_inj {α : Type} {l1 l2 r1 r2 : List α} {c : α}
    (h1 : c ∉ l1) (h2 : c ∉ l2) (h : l1 ++ c :: r1 = l2 ++ c :: r2) : l1 = l2 ∧ r1 = r2 := by
  induction l1 generalizing l2 with
  | nil =>
    cases l2 with
    | nil =>
      simp only [List.nil_append, List.cons.injEq] at h
      exact ⟨rfl, h.2⟩
    | cons y ys =>
      simp only [List.nil_append, List.cons_append, List.cons.injEq] at h
      exact absurd (h.1 ▸ h2) (by simp)
  | cons x xs ih =>
    cases l2 with
    | nil =>
      simp only [List.cons_append, List.nil_append, List.cons.injEq] at h
      exact absurd (h.1.symm ▸ h1) (by simp)
    | cons y ys =>
      simp only [List.cons_append, List.cons.injEq] at h
      have := ih (fun hm => h1 (List.mem_cons_of_mem _ hm)) (fun hm => h2 (List.mem_cons_of_mem _ hm)) h.2
      exact ⟨by rw [h.1, this.1], this.2⟩

/-- Cancel a common suffix that begins with a separator. -/
theorem cancel_tail {α : Type} {x y t : List α} {c : α} (h : x ++ c :: t = y ++ c :: t) :
    x = y := by
  have hlen : x.length = y.length := by
    have := congrArg List.length h
    simp only [List.length_append, List.length_cons] at this
    omega
  exact (List.append_inj h hlen).1

/-- Cancel a common prefix followed by a separator. -/
theorem cancel_head {α : Type} {a x y : List α} {c : α} (h : a ++ c :: x = a ++ c :: y) :
    x = y := by
  have := List.append_cancel_left h
  simpa using this

/-- `Array.prototype.join('|')` over a list of character lists. -/
def joinBar : List (List Char) → List Char
  | [] => []
  | [x] => x
  | x :: y :: rest => x ++ '|' :: joinBar (y :: rest)

/-! ## Domain value objects -/

/-- `Size` (`src/domain/valueObjects/Size.ts`).  Width and height as validated
by `Size.create`. -/
structure Size where
  width : Int
  height : Int
deriving DecidableEq, Repr

/-- `Size.create`: the `Number.isInteger` guard is subsumed by `Int`; then the
two range checks, in source order. -/
def sizeCreate (width height : Int) : Except String Size :=
  if width < 10 ∨ width > 1000 then .error "Width must be between 10 and 1000 pixels"
  else if height < 10 ∨ height > 1000 then .error "Height must be between 10 and 1000 pixels"
  else .ok ⟨width, height⟩

/-- `Size.default()`. -/
def sizeDefault : Size := ⟨200, 200⟩

/-- `Size.prototype.toString()`: the `${width}x${height}` template. -/
def sizeToString (s : Size) : List Char := intStr s.width ++ 'x' :: intStr s.height

/-- Value of an all-digit character list, as `parseInt(_, 10)` computes it. -/
def digitsVal (cs : List Char) : Nat := cs.foldl (fun acc c => acc * 10 + (c.toNat - 48)) 0

/-- `Size.fromString`: the regex `^(\d+)x(\d+)$` with case-insensitive separator,
then `parseInt` on both digit groups and `Size.create`. -/
def sizeFromString (s : String) : Except String Size :=
  match s.data.dropWhile Char.isDigit with
  | c :: rest =>
      if (c = 'x' ∨ c = 'X') ∧ s.data.takeWhile Char.isDigit ≠ [] ∧ rest ≠ [] ∧
          rest.all Char.isDigit then
        sizeCreate (digitsVal (s.data.takeWhile Char.isDigit)) (digitsVal rest)
      else .error "Size must be in format WxH (e.g., 200x200)"
  | [] => .error "Size must be in format WxH (e.g., 200x200)"

/-- `ColorValue` (`src/domain/valueObjects/ColorValue.ts`): an RGB triple.
Values produced by `ColorValue.create` are always in `[0, 255]`. -/
structure ColorValue where
  r : Nat
  g : Nat
  b : Nat
deriving DecidableEq, Repr

def colorBlack : ColorValue := ⟨0, 0, 0⟩

def colorWhite : ColorValue := ⟨255, 255, 255⟩

def isHexDigitChar (c : Char) : Bool :=
  c.isDigit || ('a' ≤ c && c ≤ 'f') || ('A' ≤ c && c ≤ 'F')

def hexVal (c : Char) : Nat :=
  if c.isDigit then c.toNat - 48
  else if 'a' ≤ c ∧ c ≤ 'f' then c.toNat - 87
  else c.toNat - 55

/-- `parseInt` with radix 16 on a two-character string: JS parses the maximal
hexadecimal prefix and yields `NaN` (here `none`) only when the first
character is not a hex digit.  (The `0x`-prefix, sign and whitespace handling
of `parseInt` are not exercised by the two-character substrings this model is
applied to with an in-range result.) -/
def parseHexPair (c0 c1 : Char) : Option Nat :=
  if isHexDigitChar c0 then
    if isHexDigitChar c1 then some (hexVal c0 * 16 + hexVal c1) else some (hexVal c0)
  else none

/-- `String.prototype.replace('#', '')`: removes the first occurrence only. -/
def removeFirstHash : List Char → List Char
  | [] => []
  | c :: cs => if c = '#' then cs else c :: removeFirstHash cs

/-- `ColorValue.parseHexColor`. -/
def parseHexColor (hex : List Char) : Except String ColorValue :=
  let cleanHex := removeFirstHash hex
  match cleanHex with
  | [c0, c1, c2] =>
      match parseHexPair c0 c0, parseHexPair c1 c1, parseHexPair c2 c2 with
      | some r, some g, some b => .ok ⟨r, g, b⟩
      | _, _, _ => .error ("Invalid hex color format: " ++ String.mk hex)
  | [c0, c1, c2, c3, c4, c5] =>
      match parseHexPair c0 c1, parseHexPair c2 c3, parseHexPair c4 c5 with
      | some r, some g, some b => .ok ⟨r, g, b⟩
      | _, _, _ => .error ("Invalid hex color format: " ++ String.mk hex)
  | _ => .error ("Invalid hex color format: " ++ String.mk hex)

/-- `parseInt(_, 10)` on a dash-split part: skip leading whitespace and an
optional `+`, then the maximal digit prefix; `NaN` (`none`) if there is none.
A `-` sign cannot occur because the parts come from `split('-')`. -/
def jsParseIntDec (cs : List Char) : Option Nat :=
  let cs1 := cs.dropWhile Char.isWhitespace
  let cs2 := match cs1 with
    | '+' :: t => t
    | _ => cs1
  let ds := cs2.takeWhile Char.isDigit
  if ds = [] then none else some (digitsVal ds)

/-- `ColorValue.parseRGBString`. -/
def parseRGBString (rgbStr : List Char) : Except String ColorValue :=
  let parts := rgbStr.splitOn '-'
  match parts with
  | [p0, p1, p2] =>
      match jsParseIntDec p0, jsParseIntDec p1, jsParseIntDec p2 with
      | some r, some g, some b =>
          if r > 255 then .error ("Invalid red value: " ++ String.mk (natStr r) ++ ". Must be between 0 and 255")
          else if g > 255 then .error ("Invalid green value: " ++ String.mk (natStr g) ++ ". Must be between 0 and 255")
          else if b > 255 then .error ("Invalid blue value: " ++ String.mk (natStr b) ++ ". Must be between 0 and 255")
          else .ok ⟨r, g, b⟩
      | _, _, _ => .error ("Invalid RGB values: " ++ String.mk rgbStr ++ ". All values must be integers")
  | _ => .error ("Invalid RGB format: " ++ String.mk rgbStr ++ ". Use format r-g-b")

/-- `ColorValue.create` / `ColorValue.parseColor`: hex-with-marker, then
dash-decimal, then bare 3- or 6-digit hex, in source order. -/
def colorCreate (input : String) : Except String ColorValue :=
  let cs := input.data
  if cs.head? = some '#' then parseHexColor cs
  else if cs.contains '-' then parseRGBString cs
  else if (cs.length = 3 ∨ cs.length = 6) ∧ cs.all isHexDigitChar then parseHexColor ('#' :: cs)
  else .error ("Invalid color format: " ++ input ++ ". Use hex (#RRGGBB or RRGGBB) or RGB (r-g-b) format")

/-- `ColorValue.prototype.toHex()` / `toString()` for component values
in `[0, 255]`. -/
def colorHexChars (c : ColorValue) : List Char :=
  '#' :: (hexByte c.r ++ hexByte c.g ++ hexByte c.b)

/-- `ErrorCorrectionLevel` (`src/domain/valueObjects/ErrorCorrectionLevel.ts`). -/
inductive ECCLevel
  | L
  | M
  | Q
  | H
deriving DecidableEq, Repr

def eccStr : ECCLevel → List Char
  | .L => ['L']
  | .M => ['M']
  | .Q => ['Q']
  | .H => ['H']

/-- ASCII model of `String.prototype.toUpperCase`. -/
def jsToUpper (s : String) : String := String.mk (s.data.map Char.toUpper)

/-- ASCII model of `String.prototype.toLowerCase`. -/
def jsToLower (s : String) : String := String.mk (s.data.map Char.toLower)

/-- `ErrorCorrectionLevelValue.create`: case-insensitive membership in
`{L, M, Q, H}`. -/
def eccCreate (level : String) : Except String ECCLevel :=
  let u := jsToUpper level
  if u = "L" then .ok .L
  else if u = "M" then .ok .M
  else if u = "Q" then .ok .Q
  else if u = "H" then .ok .H
  else .error ("Invalid error correction level: " ++ level ++ ". Valid values: L, M, Q, H")

/-- `OutputFormat` (`src/domain/valueObjects/OutputFormat.ts`). -/
inductive OutputFormat
  | png
  | gif
  | jpeg
  | jpg
  | svg
  | eps
deriving DecidableEq, Repr

def formatStr : OutputFormat → List Char
  | .png => "png".data
  | .gif => "gif".data
  | .jpeg => "jpeg".data
  | .jpg => "jpg".data
  | .svg => "svg".data
  | .eps => "eps".data

/-- `OutputFormatValue.create`: case-insensitive membership in the six formats. -/
def formatCreate (format : String) : Except String OutputFormat :=
  let l := jsToLower format
  if l = "png" then .ok .png
  else if l = "gif" then .ok .gif
  else if l = "jpeg" then .ok .jpeg
  else if l = "jpg" then .ok .jpg
  else if l = "svg" then .ok .svg
  else if l = "eps" then .ok .eps
  else .error ("Invalid output format: " ++ format ++ ". Valid formats: png, gif, jpeg, jpg, svg, eps")

/-- `DataPayload` (`src/domain/valueObjects/DataPayload.ts`): holds the trimmed
content. -/
structure DataPayload where
  content : String
deriving DecidableEq, Repr

/-- `String.prototype.trim`. -/
def jsTrim (s : String) : String :=
  String.mk (((s.data.dropWhile Char.isWhitespace).reverse.dropWhile Char.isWhitespace).reverse)

/-- `String.prototype.startsWith`, computed on the character lists. -/
def strStartsWith (s pre : String) : Bool := pre.data.isPrefixOf s.data

/-- `String.prototype.endsWith`, computed on the character lists. -/
def strEndsWith (s suf : String) : Bool := suf.data.isSuffixOf s.data

/-- `DataPayload.isUrl`: a recognizable URI scheme prefix. -/
def isUrlLike (s : String) : Bool :=
  strStartsWith s "http://" || strStartsWith s "https://" || strStartsWith s "ftp://"

/-- `DataPayload.create`.  `urlOk` abstracts the WHATWG `new URL(data)`
structural-validity check (only consulted when `isUrlLike`).  The `!data`
falsy test of the source is covered by the trimmed-empty test. -/
def dataPayloadCreate (urlOk : String → Bool) (data : String) : Except String DataPayload :=
  if jsTrim data = "" then .error "Data content cannot be empty"
  else if data.length > 900 then .error "Data content cannot exceed 900 characters"
  else if isUrlLike data && !(urlOk data) then .error "Invalid URL format in data content"
  else .ok ⟨jsTrim data⟩

inductive Complexity
  | low
  | medium
  | high
deriving DecidableEq, Repr

/-- `DataPayload.getComplexityLevel`: the length-based complexity tier. -/
def getComplexityLevel (d : DataPayload) : Complexity :=
  if d.content.length ≤ 100 then .low
  else if d.content.length ≤ 400 then .medium
  else .high

/-- `DataPayload.isCompatibleWithCharset`: all code points at most 255 when the
charset (upper-cased) is ISO-8859-1. -/
def isCompatibleWithCharset (d : DataPayload) (charset : String) : Bool :=
  if jsToUpper charset = "ISO-8859-1" then d.content.data.all (fun c => c.toNat ≤ 255)
  else true

/-! ## Overlay (Logo) value object and URL host filtering -/

/-- The parts of a parsed URL that `Logo.validateUrl` inspects. -/
structure UrlParts where
  protocol : String
  hostname : String
  pathname : String
deriving DecidableEq, Repr

/-- Characters after the last `@` (WHATWG: the host starts after the userinfo). -/
def afterLastAt (cs : List Char) : List Char :=
  (cs.reverse.takeWhile (fun c => c ≠ '@')).reverse

def isSchemeChar (c : Char) : Bool :=
  c.isAlpha || c.isDigit || c = '+' || c = '-' || c = '.'

/-- Simplified model of the WHATWG `new URL(_)` constructor, covering the
absolute `http(s)://host[:port]/path` shapes the logo validator receives:
scheme and host are lower-cased, userinfo and port are stripped from the
hostname, the path defaults to `/`.  Percent-decoding, IPv6 brackets,
backslash normalization and dot-segment removal are not modelled. -/
def urlParse (s : String) : Option UrlParts :=
  let cs := (jsTrim s).data
  let scheme := cs.takeWhile isSchemeChar
  match cs.dropWhile isSchemeChar with
  | ':' :: rest =>
      if scheme = [] ∨ ¬ (scheme.headD ' ').isAlpha then none
      else
        let sl := scheme.map Char.toLower
        if sl = "http".data ∨ sl = "https".data then
          match rest with
          | '/' :: '/' :: rest2 =>
              let isAuthChar := fun (c : Char) => c ≠ '/' ∧ c ≠ '?' ∧ c ≠ '#'
              let auth := rest2.takeWhile isAuthChar
              let after := rest2.dropWhile isAuthChar
              let host := (afterLastAt auth).takeWhile (fun c => c ≠ ':')
              if host = [] then none
              else
                let path := after.takeWhile (fun c => c ≠ '?' ∧ c ≠ '#')
                some ⟨String.mk (sl ++ [':']), String.mk (host.map Char.toLower),
                  if path = [] then "/" else String.mk path⟩
          | _ => none
        else some ⟨String.mk (sl ++ [':']), "", String.mk rest⟩
  | _ => none

/-- `Logo` (`src/domain/valueObjects/Logo.ts`). -/
structure Logo where
  source : String
  size : Int
  margin : Int
deriving DecidableEq, Repr

def predefinedLogos : List String := ["google", "facebook", "twitter", "linkedin", "github", "apple"]

/-- `Logo.isUrl`: parses and has an http(s) protocol. -/
def logoIsUrl (source : String) : Bool :=
  match urlParse source with
  | some u => u.protocol = "http:" || u.protocol = "https:"
  | none => false

/-- The private-host filter inside `Logo.validateUrl` (lines 61-65). -/
def privateHost (hostname : String) : Bool :=
  hostname = "localhost" || hostname = "127.0.0.1" ||
    strStartsWith hostname "192.168." || strStartsWith hostname "10." ||
    strStartsWith hostname "172."

/-- The supported-extension check inside `Logo.validateUrl` (lines 70-74). -/
def extSupported (pathname : String) : Bool :=
  strEndsWith (jsToLower pathname) ".png" || strEndsWith (jsToLower pathname) ".jpg" ||
    strEndsWith (jsToLower pathname) ".jpeg" || strEndsWith (jsToLower pathname) ".svg"

/-- `Logo.validateUrl` on the parsed URL: private-host filter first, then the
extension check. -/
def validateLogoUrl (u : UrlParts) : Except String Unit :=
  if privateHost u.hostname then .error "Private IP addresses and localhost are not allowed"
  else if !(extSupported u.pathname) then
    .error "Logo URL must point to a supported image format (PNG, JPG, JPEG, SVG)"
  else .ok ()

/-- `Logo.validateSource`. -/
def logoValidateSource (source : String) : Except String String :=
  if jsTrim source = "" then .error "Logo source cannot be empty"
  else
    let t := jsTrim source
    if logoIsUrl t then
      match urlParse t with
      | some u => (validateLogoUrl u).map (fun _ => t)
      | none => .error ("Invalid logo URL: " ++ t)
    else if predefinedLogos.contains (jsToLower t) then .ok t
    else
      .error ("Invalid logo source: " ++ source ++
        ". Must be a valid URL or predefined logo identifier (google, facebook, twitter, linkedin)")

def logoValidateSize (size : Int) : Except String Int :=
  if size < 10 ∨ size > 200 then .error "Logo size must be an integer between 10 and 200 pixels"
  else .ok size

def logoValidateMargin (m : Int) : Except String Int :=
  if m < 0 ∨ m > 50 then .error "Logo margin must be an integer between 0 and 50 pixels"
  else .ok m

/-- `size || 50`: zero is falsy in JS. -/
def jsOrNum (o : Option Int) (d : Int) : Int :=
  match o with
  | none => d
  | some v => if v = 0 then d else v

/-- `Logo.create`. -/
def logoCreate (source : String) (size margin : Option Int) : Except String Logo := do
  let s ← logoValidateSource source
  let sz ← logoValidateSize (jsOrNum size 50)
  let mg ← logoValidateMargin (match margin with | none => 5 | some m => m)
  return ⟨s, sz, mg⟩

/-! ## Configuration aggregate -/

/-- `QRCodeConfiguration` (`src/domain/entities/QRCodeConfiguration.ts`): the
ten canonical fields that `getHashKey` serializes. -/
structure QRConfig where
  data : DataPayload
  size : Size
  format : OutputFormat
  ecc : ECCLevel
  fg : ColorValue
  bg : ColorValue
  margin : Int
  quietZone : Int
  charsetSource : String
  charsetTarget : String
deriving DecidableEq, Repr

/-- The ten `toString()` components of `getHashKey`, in source order. -/
def hashComponents (c : QRConfig) : List (List Char) :=
  [c.data.content.data, sizeToString c.size, formatStr c.format, eccStr c.ecc,
    colorHexChars c.fg, colorHexChars c.bg, intStr c.margin, intStr c.quietZone,
    c.charsetSource.data, c.charsetTarget.data]

/-- `QRCodeConfiguration.getHashKey`:
`Buffer.from(components.join('|')).toString('base64')`. -/
def getHashKey (c : QRConfig) : String :=
  String.mk (b64Encode (utf8Encode (joinBar (hashComponents c))))

/-- Constructor parameters (`QRCodeConfigurationParams`). -/
structure ConfigParams where
  data : DataPayload
  size : Option Size := none
  format : Option OutputFormat := none
  ecc : Option ECCLevel := none
  fg : Option ColorValue := none
  bg : Option ColorValue := none
  margin : Option Int := none
  quietZone : Option Int := none
  charsetSource : Option String := none
  charsetTarget : Option String := none

/-- `QRCodeConfiguration.validateMargin`. -/
def cfgValidateMargin (m : Option Int) : Except String Int :=
  match m with
  | none => .ok 1
  | some v =>
      if v < 0 ∨ v > 50 then .error "Margin must be an integer between 0 and 50 pixels"
      else .ok v

/-- `QRCodeConfiguration.validateQuietZone`. -/
def cfgValidateQuietZone (q : Option Int) : Except String Int :=
  match q with
  | none => .ok 0
  | some v =>
      if v < 0 ∨ v > 100 then .error "Quiet zone must be an integer between 0 and 100 modules"
      else .ok v

/-- `params.charsetSource || 'UTF-8'`: the empty string is falsy. -/
def jsOrStr (o : Option String) (d : String) : String :=
  match o with
  | none => d
  | some s => if s = "" then d else s

def supportedCharsets : List String := ["UTF-8", "ISO-8859-1"]

/-- The `QRCodeConfiguration` constructor: margin and quiet-zone validation,
defaulting, then `validateConfiguration` (charset compatibility and the two
supported-charset checks, in source order).  The color-contrast check of
`validateConfiguration` only emits a `console.warn` and can never make
construction fail, so it does not appear in the result. -/
def qrConfigCreate (p : ConfigParams) : Except String QRConfig := do
  let margin ← cfgValidateMargin p.margin
  let qz ← cfgValidateQuietZone p.quietZone
  let cs := jsOrStr p.charsetSource "UTF-8"
  let ct := jsOrStr p.charsetTarget "UTF-8"
  if !(isCompatibleWithCharset p.data cs) then
    .error ("Data content is not compatible with charset: " ++ cs)
  else if !(supportedCharsets.contains cs) then
    .error ("Unsupported source charset: " ++ cs ++ ". Supported: UTF-8, ISO-8859-1")
  else if !(supportedCharsets.contains ct) then
    .error ("Unsupported target charset: " ++ ct ++ ". Supported: UTF-8, ISO-8859-1")
  else
    return ⟨p.data, p.size.getD sizeDefault, p.format.getD .png, p.ecc.getD .L,
      p.fg.getD colorBlack, p.bg.getD colorWhite, margin, qz, cs, ct⟩

/-! ## Validation pipeline (`ValidateParametersUseCase`) -/

inductive VErrorType
  | INVALID_FORMAT
  | OUT_OF_RANGE
  | REQUIRED_FIELD
  | INVALID_VALUE
  | CONSTRAINT_VIOLATION
deriving DecidableEq, Repr

/-- The `value` payload carried by a `ValidationError` (typed `any` in TS).
Composite object payloads are collapsed to one constructor. -/
inductive VValue
  | noVal
  | str (s : String)
  | int (i : Int)
  | composite
deriving DecidableEq, Repr

structure VError where
  field : String
  message : String
  etype : VErrorType
  value : VValue
deriving DecidableEq, Repr

/-- `ValidationResult` (`src/domain/entities/ValidationResult.ts`). -/
structure ValidationResult where
  isValidFlag : Bool
  errors : List VError
deriving DecidableEq, Repr

def vSuccess : ValidationResult := ⟨true, []⟩

def vFailure (errs : List VError) : ValidationResult := ⟨false, errs⟩

def hasErrorForField (v : ValidationResult) (f : String) : Bool :=
  v.errors.any (fun e => e.field = f)

/-- `QRCodeRequestDTO`: absent fields are `none`; `charset-source` and
`charset-target` are valid TS property names spelled here without the dash. -/
structure RequestDTO where
  data : Option String := none
  size : Option String := none
  format : Option String := none
  ecc : Option String := none
  color : Option String := none
  bgcolor : Option String := none
  margin : Option Int := none
  qzone : Option Int := none
  charsetSource : Option String := none
  charsetTarget : Option String := none
  logo : Option String := none
  logo_size : Option Int := none
  logo_margin : Option Int := none

/-- JS truthiness test `if (request.field)` for a string field: the empty
string is falsy. -/
def present (o : Option String) : Option String :=
  match o with
  | some s => if s = "" then none else some s
  | none => none

/-- JS truthiness test for a numeric field: zero is falsy. -/
def presentNum (o : Option Int) : Option Int :=
  match o with
  | some v => if v = 0 then none else some v
  | none => none

/-- `validateData`: `!data` yields the dedicated required-field error, else
`DataPayload.create` is tried. -/
def vdData (urlOk : String → Bool) (data : Option String) : List VError :=
  match data with
  | none => [⟨"data", "Data field is required", .REQUIRED_FIELD, .noVal⟩]
  | some s =>
      if s = "" then [⟨"data", "Data field is required", .REQUIRED_FIELD, .noVal⟩]
      else
        match dataPayloadCreate urlOk s with
        | .ok _ => []
        | .error m => [⟨"data", m, .INVALID_VALUE, .str s⟩]

def vdSize (s : String) : List VError :=
  match sizeFromString s with
  | .ok _ => []
  | .error m => [⟨"size", m, .INVALID_FORMAT, .str s⟩]

def vdFormat (s : String) : List VError :=
  match formatCreate s with
  | .ok _ => []
  | .error m => [⟨"format", m, .INVALID_VALUE, .str s⟩]

def vdEcc (s : String) : List VError :=
  match eccCreate s with
  | .ok _ => []
  | .error m => [⟨"ecc", m, .INVALID_VALUE, .str s⟩]

def vdColor (s : String) (f : String) : List VError :=
  match colorCreate s with
  | .ok _ => []
  | .error m => [⟨f, m, .INVALID_FORMAT, .str s⟩]

def vdMargin (m : Int) : List VError :=
  if m < 0 ∨ m > 50 then
    [⟨"margin", "Margin must be an integer between 0 and 50 pixels", .OUT_OF_RANGE, .int m⟩]
  else []

def vdQzone (q : Int) : List VError :=
  if q < 0 ∨ q > 100 then
    [⟨"qzone", "Quiet zone must be an integer between 0 and 100 modules", .OUT_OF_RANGE, .int q⟩]
  else []

def vdCharset (c : String) (f : String) : List VError :=
  if !(supportedCharsets.contains c) then
    [⟨f, "Unsupported charset: " ++ c ++ ". Supported: UTF-8, ISO-8859-1", .INVALID_VALUE, .str c⟩]
  else []

def vdLogo (l : String) (ls lm : Option Int) : List VError :=
  match logoCreate l ls lm with
  | .ok _ => []
  | .error m => [⟨"logo", m, .INVALID_VALUE, .composite⟩]

/-- `validateColorContrast`: only fires when both colors parse; the numeric
contrast predicate (floating-point luminance) is abstracted as `contrastOk`. -/
def vdContrast (contrastOk : ColorValue → ColorValue → Bool) (c bg : String) : List VError :=
  match colorCreate c, colorCreate bg with
  | .ok fgc, .ok bgc =>
      if !(contrastOk fgc bgc) then
        [⟨"color_contrast",
          "Color combination may not meet WCAG AA accessibility standards (contrast ratio < 4.5:1)",
          .CONSTRAINT_VIOLATION, .composite⟩]
      else []
  | _, _ => []

/-- `validateLogoSizeRelativeToQR`: `logoSize > qrCodeSize * 0.3`, stated
exactly over the rationals as `10 * logoSize > 3 * qrCodeSize`. -/
def vdLogoSizeRel (qrSize : String) (logoSize : Int) : List VError :=
  match sizeFromString qrSize with
  | .error _ => []
  | .ok sz =>
      let qrCodeSize := min sz.width sz.height
      if 10 * logoSize > 3 * qrCodeSize then
        [⟨"logo_size",
          "Logo size (" ++ String.mk (intStr logoSize) ++ "px) is too large for QR code size (" ++
            qrSize ++ "). Maximum allowed size is " ++ String.mk (intStr (3 * qrCodeSize / 10)) ++
            "px (30% of QR code size)",
          .CONSTRAINT_VIOLATION, .composite⟩]
      else []

/-- The errors contributed by each `execute` step, guarded by the same JS
truthiness presence tests as the source. -/
def dataErrs (urlOk : String → Bool) (r : RequestDTO) : List VError := vdData urlOk r.data

def sizeErrs (r : RequestDTO) : List VError :=
  match present r.size with
  | some s => vdSize s
  | none => []

def formatErrs (r : RequestDTO) : List VError :=
  match present r.format with
  | some s => vdFormat s
  | none => []

def eccErrs (r : RequestDTO) : List VError :=
  match present r.ecc with
  | some s => vdEcc s
  | none => []

def colorErrs (r : RequestDTO) : List VError :=
  match present r.color with
  | some s => vdColor s "color"
  | none => []

def bgcolorErrs (r : RequestDTO) : List VError :=
  match present r.bgcolor with
  | some s => vdColor s "bgcolor"
  | none => []

def marginErrs (r : RequestDTO) : List VError :=
  match r.margin with
  | some m => vdMargin m
  | none => []

def qzoneErrs (r : RequestDTO) : List VError :=
  match r.qzone with
  | some q => vdQzone q
  | none => []

def csErrs (r : RequestDTO) : List VError :=
  match present r.charsetSource with
  | some c => vdCharset c "charset-source"
  | none => []

def ctErrs (r : RequestDTO) : List VError :=
  match present r.charsetTarget with
  | some c => vdCharset c "charset-target"
  | none => []

def logoErrs (r : RequestDTO) : List VError :=
  match present r.logo with
  | some l => vdLogo l r.logo_size r.logo_margin
  | none => []

def contrastErrs (contrastOk : ColorValue → ColorValue → Bool) (r : RequestDTO) : List VError :=
  match present r.color, present r.bgcolor with
  | some c, some b => vdContrast contrastOk c b
  | _, _ => []

def logoSizeErrs (r : RequestDTO) : List VError :=
  match present r.logo, present r.size, presentNum r.logo_size with
  | some _, some s, some ls => vdLogoSizeRel s ls
  | _, _, _ => []

/-- The accumulated error list of `ValidateParametersUseCase.execute`, in
source order. -/
def executeErrors (contrastOk : ColorValue → ColorValue → Bool) (urlOk : String → Bool)
    (r : RequestDTO) : List VError :=
  dataErrs urlOk r ++ sizeErrs r ++ formatErrs r ++ eccErrs r ++ colorErrs r ++ bgcolorErrs r
    ++ marginErrs r ++ qzoneErrs r ++ csErrs r ++ ctErrs r ++ logoErrs r
    ++ contrastErrs contrastOk r ++ logoSizeErrs r

/-- `ValidateParametersUseCase.execute`. -/
def validateExecute (contrastOk : ColorValue → ColorValue → Bool) (urlOk : String → Bool)
    (r : RequestDTO) : ValidationResult :=
  let errs := executeErrors contrastOk urlOk r
  if errs.isEmpty then vSuccess else vFailure errs

/-! ## In-memory cache repository (`InMemoryCacheRepository`) -/

structure CacheEntry (α : Type) where
  qrCode : α
  expiresAt : Nat
  createdAt : Nat
deriving DecidableEq, Repr

/-- The repository state: a JS `Map` (insertion-ordered association list) plus
the hit/miss/set/delete counters. -/
structure CacheState (α : Type) where
  entries : List (String × CacheEntry α)
  hits : Nat
  misses : Nat
  sets : Nat
  deletes : Nat
deriving DecidableEq, Repr

def emptyCache (α : Type) : CacheState α := ⟨[], 0, 0, 0, 0⟩

def mapLookup {α : Type} : List (String × CacheEntry α) → String → Option (CacheEntry α)
  | [], _ => none
  | (k', e) :: rest, k => if k' = k then some e else mapLookup rest k

/-- `Map.prototype.set`: overwrite in place (keeping insertion order) or
append. -/
def mapSet {α : Type} : List (String × CacheEntry α) → String → CacheEntry α →
    List (String × CacheEntry α)
  | [], k, e => [(k, e)]
  | (k', e') :: rest, k, e => if k' = k then (k, e) :: rest else (k', e') :: mapSet rest k e

def mapDelete {α : Type} : List (String × CacheEntry α) → String → List (String × CacheEntry α)
  | [], _ => []
  | (k', e') :: rest, k => if k' = k then rest else (k', e') :: mapDelete rest k

/-- `InMemoryCacheRepository.get` at clock `now`. -/
def repoGet {α : Type} (now : Nat) (k : String) (st : CacheState α) :
    Option α × CacheState α :=
  match mapLookup st.entries k with
  | none => (none, { st with misses := st.misses + 1 })
  | some e =>
      if now > e.expiresAt then
        (none, { st with entries := mapDelete st.entries k, misses := st.misses + 1 })
      else (some e.qrCode, { st with hits := st.hits + 1 })

/-- `ttlSeconds || this.defaultTTL`: zero is falsy. -/
def jsOrNat (o : Option Nat) (d : Nat) : Nat :=
  match o with
  | none => d
  | some t => if t = 0 then d else t

/-- One step of `evictOldest`'s scan: keep the key with the strictly smallest
`createdAt` seen so far (`oldestTime` starts at `Infinity`, modelled by the
`none` accumulator). -/
def oldestStep {α : Type} (acc : Option (String × Nat)) (p : String × CacheEntry α) :
    Option (String × Nat) :=
  match acc with
  | none => some (p.1, p.2.createdAt)
  | some (k0, t0) => if p.2.createdAt < t0 then some (p.1, p.2.createdAt) else some (k0, t0)

/-- `evictOldest`'s scan over the whole map. -/
def oldestKey {α : Type} (entries : List (String × CacheEntry α)) : Option String :=
  (entries.foldl oldestStep none).map Prod.fst

/-- `InMemoryCacheRepository.evictOldest`.  NOTE the faithful modelling of the
source's `if (oldestKey)` truthiness test: when the oldest key is the empty
string (falsy in JS) nothing is deleted. -/
def evictOldest {α : Type} (st : CacheState α) : CacheState α :=
  match oldestKey st.entries with
  | some k => if k ≠ "" then { st with entries := mapDelete st.entries k } else st
  | none => st

/-- `InMemoryCacheRepository.set` at clock `now`. -/
def repoSet {α : Type} (maxKeys defaultTTL : Nat) (now : Nat) (k : String) (v : α)
    (ttlSeconds : Option Nat) (st : CacheState α) : CacheState α :=
  let ttl := jsOrNat ttlSeconds defaultTTL * 1000
  let st1 :=
    if st.entries.length ≥ maxKeys ∧ (mapLookup st.entries k).isNone then evictOldest st else st
  { st1 with entries := mapSet st1.entries k ⟨v, now + ttl, now⟩, sets := st1.sets + 1 }

/-- `InMemoryCacheRepository.delete`. -/
def repoDelete {α : Type} (k : String) (st : CacheState α) : CacheState α :=
  match mapLookup st.entries k with
  | some _ => { st with entries := mapDelete st.entries k, deletes := st.deletes + 1 }
  | none => st

/-- `InMemoryCacheRepository.clear`: clears the map and resets the counters. -/
def repoClear {α : Type} (_st : CacheState α) : CacheState α := emptyCache α

inductive CacheOp (α : Type)
  | set (now : Nat) (k : String) (v : α) (ttl : Option Nat)
  | del (k : String)
  | clear

def applyOp {α : Type} (maxKeys defaultTTL : Nat) (st : CacheState α) :
    CacheOp α → CacheState α
  | .set now k v ttl => repoSet maxKeys defaultTTL now k v ttl st
  | .del k => repoDelete k st
  | .clear => repoClear st

def applyOps {α : Type} (maxKeys defaultTTL : Nat) (ops : List (CacheOp α))
    (st : CacheState α) : CacheState α :=
  ops.foldl (applyOp maxKeys defaultTTL) st

/-! ## Cache management use case (`CacheManagementUseCase`) -/

/-- `CacheManagementUseCase.get`: the repository outcome (possibly a thrown
error, modelled as `Except.error`) is caught; the catch arm returns `null`. -/
def cmGet {α : Type} (repoResult : Except String (Option α)) : Option α :=
  match repoResult with
  | .ok v => v
  | .error _ => none

/-- `CacheManagementUseCase.set`: `true` on success, `false` when the
repository throws. -/
def cmSet (repoResult : Except String Unit) : Bool :=
  match repoResult with
  | .ok _ => true
  | .error _ => false

/-- `CacheManagementUseCase.delete`. -/
def cmDelete (repoResult : Except String Unit) : Bool :=
  match repoResult with
  | .ok _ => true
  | .error _ => false

/-- `CacheManagementUseCase.clear`. -/
def cmClear (repoResult : Except String Unit) : Bool :=
  match repoResult with
  | .ok _ => true
  | .error _ => false

/-- The TTL `CacheManagementUseCase.set` passes to the repository:
`ttlSeconds || this.defaultTTL` (default 3600). -/
def cmEffectiveTTL (defaultTTL : Nat) (ttlSeconds : Option Nat) : Nat :=
  jsOrNat ttlSeconds defaultTTL

/-! ## Cache orchestration TTL (`GenerateQRCodeUseCase.execute`, step 5) -/

/-- The TTL used when `GenerateQRCodeUseCase.execute` stores a freshly rendered
result: the source calls `cacheManagementUseCase.set(cacheKey, qrCode)` with no
third argument, so the use case's default applies for every configuration. -/
def generateStoreTTL (defaultTTL : Nat) (_c : QRConfig) : Nat :=
  cmEffectiveTTL defaultTTL none

/-- Modelled from the spec: the complexity policy that §4.5 of the spec (and
the repository's SA document, `calculateCacheTTL`) describes but that is
missing from the implementation — a configuration is complex when its payload
complexity tier is high, its canvas area exceeds a fixed threshold, or its
error tolerance is the highest level. -/
def isComplexConfig (areaThreshold : Int) (c : QRConfig) : Bool :=
  getComplexityLevel c.data = .high ∨ c.size.width * c.size.height > areaThreshold ∨ c.ecc = .H

/-! ## Claim C3: Size construction and squareness -/

/-- C3 counterexample: `Size.create(300, 400)` and `Size.fromString('300x400')`
both succeed although 300 ≠ 400, so non-square dimensions are not rejected. -/
theorem c3_nonsquare_accepted :
    sizeCreate 300 400 = .ok ⟨300, 400⟩ ∧ sizeFromString "300x400" = .ok ⟨300, 400⟩ ∧
      (300 : Int) ≠ 400 := by
  refine ⟨rfl, rfl, by decide⟩

/-- C3 (amended): `Size.create(w, h)` succeeds exactly when both integer
dimensions lie in `[10, 1000]` — squareness is not required; every `Size`
produced by `create` or `fromString` has each dimension within `[10, 1000]`,
but not necessarily equal width and height. -/
theorem c3_size_ranges :
    (∀ w h : Int, (sizeCreate w h).isOk = true ↔ (10 ≤ w ∧ w ≤ 1000 ∧ 10 ≤ h ∧ h ≤ 1000)) ∧
    (∀ w h : Int, ∀ s : Size, sizeCreate w h = .ok s →
      s.width = w ∧ s.height = h ∧
        10 ≤ s.width ∧ s.width ≤ 1000 ∧ 10 ≤ s.height ∧ s.height ≤ 1000) ∧
    (∀ str : String, ∀ s : Size, sizeFromString str = .ok s →
      10 ≤ s.width ∧ s.width ≤ 1000 ∧ 10 ≤ s.height ∧ s.height ≤ 1000) := by
  have hcreate : ∀ w h : Int, ∀ s : Size, sizeCreate w h = .ok s →
      s.width = w ∧ s.height = h ∧
        10 ≤ s.width ∧ s.width ≤ 1000 ∧ 10 ≤ s.height ∧ s.height ≤ 1000 := by
    intro w h s hok
    unfold sizeCreate at hok
    split at hok
    · exact absurd hok (by simp)
    · split at hok
      · exact absurd hok (by simp)
      · simp only [Except.ok.injEq] at hok
        subst hok
        refine ⟨rfl, rfl, ?_, ?_, ?_, ?_⟩ <;> dsimp only <;> omega
  refine ⟨?_, hcreate, ?_⟩
  · intro w h
    constructor
    · intro hok
      cases he : sizeCreate w h with
      | ok s =>
        obtain ⟨e1, e2, e3, e4, e5, e6⟩ := hcreate w h s he
        omega
      | error m =>
        rw [he] at hok
        simp [Except.isOk, Except.toBool] at hok
    · intro hr
      unfold sizeCreate
      rw [if_neg (by omega), if_neg (by omega)]
      rfl
  · intro str s hok
    unfold sizeFromString at hok
    split at hok
    · split at hok
      · obtain ⟨e1, e2, e3, e4, e5, e6⟩ := hcreate _ _ _ hok
        omega
      · exact absurd hok (by simp)
    · exact absurd hok (by simp)

/-- C3 amended-claim witness at concrete inputs. -/
theorem c3_size_ranges_witness :
    (sizeCreate 15 20).isOk = true ∧
      (10 ≤ (⟨300, 400⟩ : Size).width ∧ (⟨300, 400⟩ : Size).width ≤ 1000 ∧
        10 ≤ (⟨300, 400⟩ : Size).height ∧ (⟨300, 400⟩ : Size).height ≤ 1000) :=
  ⟨(c3_size_ranges.1 15 20).mpr (by decide),
    c3_size_ranges.2.2 "300x400" ⟨300, 400⟩ rfl⟩

/-! ## Claim C9: DataPayload.create boundaries -/

/-- C9: `DataPayload.create` succeeds for every input that is non-empty after
trimming, of length at most 900, and URL-valid when it carries a scheme
prefix; every longer (non-whitespace-only) input fails with the
900-character-limit message; empty or whitespace-only input is rejected first
with the dedicated emptiness error, before the length check. -/
theorem c9_dataPayload_boundaries (urlOk : String → Bool) (s : String) :
    (jsTrim s ≠ "" → s.length ≤ 900 → (isUrlLike s = true → urlOk s = true) →
      (dataPayloadCreate urlOk s).isOk = true) ∧
    (901 ≤ s.length → jsTrim s ≠ "" →
      dataPayloadCreate urlOk s = .error "Data content cannot exceed 900 characters") ∧
    (jsTrim s = "" → dataPayloadCreate urlOk s = .error "Data content cannot be empty") := by
  refine ⟨?_, ?_, ?_⟩
  · intro hne hlen hurl
    unfold dataPayloadCreate
    rw [if_neg hne, if_neg (by omega)]
    have : (isUrlLike s && !urlOk s) = false := by
      cases hu : isUrlLike s with
      | false => simp
      | true => simp [hurl hu]
    rw [this]
    rfl
  · intro hlen hne
    unfold dataPayloadCreate
    rw [if_neg hne, if_pos (by omega)]
  · intro he
    unfold dataPayloadCreate
    rw [if_pos he]

set_option maxRecDepth 100000 in
/-- C9 witness: 900 `a`s succeed, 901 fail with the length error, whitespace
fails with the emptiness error. -/
theorem c9_dataPayload_boundaries_witness :
    (dataPayloadCreate (fun _ => true) (String.mk (List.replicate 900 'a'))).isOk = true ∧
      dataPayloadCreate (fun _ => true) (String.mk (List.replicate 901 'a')) =
        .error "Data content cannot exceed 900 characters" ∧
      dataPayloadCreate (fun _ => true) "   " = .error "Data content cannot be empty" :=
  ⟨(c9_dataPayload_boundaries (fun _ => true) _).1 (by decide) (by decide) (by decide),
    (c9_dataPayload_boundaries (fun _ => true) _).2.1 (by decide) (by decide),
    (c9_dataPayload_boundaries (fun _ => true) _).2.2 (by decide)⟩

/-! ## Claim C4: color contrast never blocks construction -/

/-- C4: `QRCodeConfiguration` construction succeeds for every pair of
foreground/background colors — including low-contrast pairs — whenever the
margin, quiet zone, charset support and charset compatibility invariants hold;
the contrast check only warns. -/
theorem c4_contrast_never_blocks (d : DataPayload) (sz : Option Size) (fm : Option OutputFormat)
    (ec : Option ECCLevel) (fg bg : Option ColorValue) (m q : Option Int) (cs ct : Option String)
    (hm : (cfgValidateMargin m).isOk = true)
    (hq : (cfgValidateQuietZone q).isOk = true)
    (hcompat : isCompatibleWithCharset d (jsOrStr cs "UTF-8") = true)
    (hcs : supportedCharsets.contains (jsOrStr cs "UTF-8") = true)
    (hct : supportedCharsets.contains (jsOrStr ct "UTF-8") = true) :
    (qrConfigCreate ⟨d, sz, fm, ec, fg, bg, m, q, cs, ct⟩).isOk = true := by
  obtain ⟨mv, hmv⟩ : ∃ v, cfgValidateMargin m = .ok v := by
    cases h : cfgValidateMargin m with
    | ok v => exact ⟨v, rfl⟩
    | error e =>
      rw [h] at hm
      simp [Except.isOk, Except.toBool] at hm
  obtain ⟨qv, hqv⟩ : ∃ v, cfgValidateQuietZone q = .ok v := by
    cases h : cfgValidateQuietZone q with
    | ok v => exact ⟨v, rfl⟩
    | error e =>
      rw [h] at hq
      simp [Except.isOk, Except.toBool] at hq
  unfold qrConfigCreate
  simp only [hmv, hqv, bind, Except.bind, hcompat, hcs, hct, Bool.not_true, Bool.false_eq_true,
    if_false, ite_false, Bool.not_eq_true]
  rfl

/-- C4 witness: identical black foreground and background (contrast ratio 1,
far below 3.0) still construct successfully. -/
theorem c4_contrast_never_blocks_witness :
    (qrConfigCreate ⟨⟨"hello"⟩, none, none, none, some colorBlack, some colorBlack,
      none, none, none, none⟩).isOk = true :=
  c4_contrast_never_blocks ⟨"hello"⟩ none none none (some colorBlack) (some colorBlack)
    none none none none rfl rfl rfl rfl rfl

/-! ## Claim C8: cache use-case operations never raise -/

/-- C8: each `CacheManagementUseCase` operation catches the repository outcome
and returns normally: a thrown repository error degrades `get` to a miss
(`none`) and `set`/`delete`/`clear` to `false`, while successes pass through. -/
theorem c8_cache_ops_never_raise (α : Type) (err : String) (v : Option α) :
    cmGet (Except.error err) = (none : Option α) ∧
      cmGet (Except.ok v) = v ∧
      cmSet (Except.error err) = false ∧
      cmSet (Except.ok ()) = true ∧
      cmDelete (Except.error err) = false ∧
      cmDelete (Except.ok ()) = true ∧
      cmClear (Except.error err) = false ∧
      cmClear (Except.ok ()) = true :=
  ⟨rfl, rfl, rfl, rfl, rfl, rfl, rfl, rfl⟩

/-! ## Claim C2: TTL policy on cache miss -/

/-- A configuration with a high-complexity payload (500 characters). -/
def c2ComplexCfg : QRConfig :=
  ⟨⟨String.mk (List.replicate 500 'a')⟩, sizeDefault, .png, .L, colorBlack, colorWhite,
    1, 0, "UTF-8", "UTF-8"⟩

/-- A low-complexity configuration. -/
def c2SimpleCfg : QRConfig :=
  ⟨⟨"hello"⟩, sizeDefault, .png, .L, colorBlack, colorWhite, 1, 0, "UTF-8", "UTF-8"⟩

set_option maxRecDepth 100000 in
/-- C2: `GenerateQRCodeUseCase.execute` stores every rendered result with the
same use-case default TTL — it passes no TTL to `CacheManagementUseCase.set` —
so a complex configuration (high payload tier) is cached no longer than a
simple one, contradicting the documented complexity-based TTL policy. -/
theorem c2_ttl_ignores_complexity :
    (∀ c c' : QRConfig, ∀ dttl : Nat, generateStoreTTL dttl c = generateStoreTTL dttl c') ∧
      generateStoreTTL 3600 c2ComplexCfg = 3600 ∧
      (∀ t : Int, isComplexConfig t c2ComplexCfg = true) ∧
      isComplexConfig 90000 c2SimpleCfg = false ∧
      ¬ generateStoreTTL 3600 c2SimpleCfg < generateStoreTTL 3600 c2ComplexCfg := by
  refine ⟨fun c c' dttl => rfl, rfl, ?_, by decide, by decide⟩
  intro t
  have hhigh : getComplexityLevel c2ComplexCfg.data = Complexity.high := by decide
  simp [isComplexConfig, hhigh]

/-! ## Claim C10: overlay URL private-host filter -/

/-- C10: `Logo.validateUrl` rejects exactly the hostnames matching the
prefix-based private filter (`localhost`, `127.0.0.1`, `192.168.*`, `10.*`,
`172.*`) — including publicly routable ones such as `172.5.5.5` and
`10.example.com` — and accepts any other hostname whose path ends in
`.png`/`.jpg`/`.jpeg`/`.svg`. -/
theorem c10_logo_host_filter :
    (∀ u : UrlParts, privateHost u.hostname = true →
      validateLogoUrl u = .error "Private IP addresses and localhost are not allowed") ∧
      (∀ u : UrlParts, privateHost u.hostname = false → extSupported u.pathname = true →
        validateLogoUrl u = .ok ()) ∧
      (∀ u : UrlParts, privateHost u.hostname = false → extSupported u.pathname = false →
        validateLogoUrl u =
          .error "Logo URL must point to a supported image format (PNG, JPG, JPEG, SVG)") ∧
      logoCreate "http://172.5.5.5/logo.png" none none =
        .error "Private IP addresses and localhost are not allowed" ∧
      logoCreate "http://10.example.com/logo.png" none none =
        .error "Private IP addresses and localhost are not allowed" ∧
      logoCreate "http://example.com/logo.png" none none =
        .ok ⟨"http://example.com/logo.png", 50, 5⟩ := by
  refine ⟨?_, ?_, ?_, rfl, rfl, rfl⟩
  · intro u h
    simp [validateLogoUrl, h]
  · intro u h1 h2
    simp [validateLogoUrl, h1, h2]
  · intro u h1 h2
    simp [validateLogoUrl, h1, h2]

/-- C10 witness at concrete parsed URLs. -/
theorem c10_logo_host_filter_witness :
    validateLogoUrl ⟨"http:", "192.168.0.7", "/logo.png"⟩ =
      .error "Private IP addresses and localhost are not allowed" ∧
      validateLogoUrl ⟨"https:", "cdn.example.net", "/images/logo.SVG"⟩ = .ok () ∧
      validateLogoUrl ⟨"https:", "cdn.example.net", "/logo.bmp"⟩ =
        .error "Logo URL must point to a supported image format (PNG, JPG, JPEG, SVG)" :=
  ⟨c10_logo_host_filter.1 ⟨"http:", "192.168.0.7", "/logo.png"⟩ (by decide),
    c10_logo_host_filter.2.1 ⟨"https:", "cdn.example.net", "/images/logo.SVG"⟩ (by decide)
      (by decide),
    c10_logo_host_filter.2.2.1 ⟨"https:", "cdn.example.net", "/logo.bmp"⟩ (by decide) (by decide)⟩

/-! ## Claim C7: get semantics with expiry and counters -/

theorem mapLookup_mapSet_self {α : Type} (l : List (String × CacheEntry α)) (k : String)
    (e : CacheEntry α) : mapLookup (mapSet l k e) k = some e := by
  induction l with
  | nil => simp [mapSet, mapLookup]
  | cons p rest ih =>
    cases p with
    | mk k' e' =>
      unfold mapSet
      by_cases h : k' = k
      · rw [if_pos h]
        simp [mapLookup]
      · rw [if_neg h]
        unfold mapLookup
        rw [if_neg h]
        exact ih

/-- C7: after `set(k, v, ttl)` at time `now0`, a `get(k)` at any time up to
`expiresAt = now0 + ttl·1000` returns `v` and increments only the hit counter;
a `get(k)` after `expiresAt` returns `none`, physically removes the entry and
increments only the miss counter; and a `get` on an absent key returns `none`
and increments the miss counter. -/
theorem c7_get_semantics (α : Type) (maxKeys defaultTTL : Nat) (st : CacheState α) (k : String)
    (v : α) (ttl : Option Nat) (now0 : Nat) :
    (∀ now1, now1 ≤ now0 + jsOrNat ttl defaultTTL * 1000 →
      repoGet now1 k (repoSet maxKeys defaultTTL now0 k v ttl st) =
        (some v,
          { repoSet maxKeys defaultTTL now0 k v ttl st with
              hits := (repoSet maxKeys defaultTTL now0 k v ttl st).hits + 1 })) ∧
      (∀ now1, now0 + jsOrNat ttl defaultTTL * 1000 < now1 →
        repoGet now1 k (repoSet maxKeys defaultTTL now0 k v ttl st) =
          (none,
            { repoSet maxKeys defaultTTL now0 k v ttl st with
                entries := mapDelete (repoSet maxKeys defaultTTL now0 k v ttl st).entries k,
                misses := (repoSet maxKeys defaultTTL now0 k v ttl st).misses + 1 })) ∧
      (∀ now1 key, mapLookup st.entries key = none →
        repoGet now1 key st = (none, { st with misses := st.misses + 1 })) := by
  have hlook : mapLookup (repoSet maxKeys defaultTTL now0 k v ttl st).entries k =
      some ⟨v, now0 + jsOrNat ttl defaultTTL * 1000, now0⟩ := by
    unfold repoSet
    exact mapLookup_mapSet_self _ k _
  refine ⟨?_, ?_, ?_⟩
  · intro now1 hle
    unfold repoGet
    rw [hlook]
    dsimp only
    rw [if_neg (show ¬ now1 > now0 + jsOrNat ttl defaultTTL * 1000 by omega)]
  · intro now1 hgt
    unfold repoGet
    rw [hlook]
    dsimp only
    rw [if_pos (show now1 > now0 + jsOrNat ttl defaultTTL * 1000 by omega)]
  · intro now1 key habs
    unfold repoGet
    rw [habs]

/-- C7 witness: the spec's concrete scenario — `set(k, v, ttl = 1 s)` at time
0, an immediate `get` hits, a `get` at 1100 ms misses and removes the entry. -/
theorem c7_get_semantics_witness :
    repoGet 0 "k" (repoSet 1000 3600 0 "k" (42 : Nat) (some 1) (emptyCache Nat)) =
      (some 42,
        { repoSet 1000 3600 0 "k" (42 : Nat) (some 1) (emptyCache Nat) with
            hits := (repoSet 1000 3600 0 "k" (42 : Nat) (some 1) (emptyCache Nat)).hits + 1 }) ∧
      repoGet 1100 "k" (repoSet 1000 3600 0 "k" (42 : Nat) (some 1) (emptyCache Nat)) =
        (none,
          { repoSet 1000 3600 0 "k" (42 : Nat) (some 1) (emptyCache Nat) with
              entries :=
                mapDelete (repoSet 1000 3600 0 "k" (42 : Nat) (some 1) (emptyCache Nat)).entries
                  "k",
              misses :=
                (repoSet 1000 3600 0 "k" (42 : Nat) (some 1) (emptyCache Nat)).misses + 1 }) ∧
      repoGet 7 "absent" (emptyCache Nat) = (none, { emptyCache Nat with misses := 1 }) :=
  ⟨(c7_get_semantics Nat 1000 3600 (emptyCache Nat) "k" 42 (some 1) 0).1 0 (by decide),
    (c7_get_semantics Nat 1000 3600 (emptyCache Nat) "k" 42 (some 1) 0).2.1 1100 (by decide),
    (c7_get_semantics Nat 1000 3600 (emptyCache Nat) "k" 42 (some 1) 0).2.2 7 "absent" rfl⟩

/-! ## Claim C6: capacity eviction -/

/-- C6 evidence: with `maxKeys = 1`, after `set("", v)` the store is at
capacity and `""` is the oldest key; a subsequent `set("a", v)` finds the
store full with a new key, but `evictOldest`'s `if (oldestKey)` truthiness
test skips the falsy empty-string key, so nothing is evicted and the store
grows to 2 entries, exceeding `maxKeys`. -/
theorem c6_empty_key_breaks_capacity :
    (applyOps 1 3600 [CacheOp.set 0 "" (1 : Nat) none] (emptyCache Nat)).entries.length = 1 ∧
      oldestKey (applyOps 1 3600 [CacheOp.set 0 "" (1 : Nat) none] (emptyCache Nat)).entries =
        some "" ∧
      (applyOps 1 3600 [CacheOp.set 0 "" (1 : Nat) none, CacheOp.set 1 "a" 2 none]
        (emptyCache Nat)).entries.length = 2 := by
  refine ⟨rfl, rfl, rfl⟩

/-! ## Claim C5: one-pass error accumulation -/

theorem dataErrs_field (uok : String → Bool) (r : RequestDTO) :
    ∀ e ∈ dataErrs uok r, e.field = "data" := by
  intro e he
  unfold dataErrs vdData at he
  repeat' split at he
  all_goals simp_all

theorem sizeErrs_field (r : RequestDTO) : ∀ e ∈ sizeErrs r, e.field = "size" := by
  intro e he
  unfold sizeErrs vdSize at he
  repeat' split at he
  all_goals simp_all

theorem formatErrs_field (r : RequestDTO) : ∀ e ∈ formatErrs r, e.field = "format" := by
  intro e he
  unfold formatErrs vdFormat at he
  repeat' split at he
  all_goals simp_all

theorem eccErrs_field (r : RequestDTO) : ∀ e ∈ eccErrs r, e.field = "ecc" := by
  intro e he
  unfold eccErrs vdEcc at he
  repeat' split at he
  all_goals simp_all

theorem colorErrs_field (r : RequestDTO) : ∀ e ∈ colorErrs r, e.field = "color" := by
  intro e he
  unfold colorErrs vdColor at he
  repeat' split at he
  all_goals simp_all

theorem bgcolorErrs_field (r : RequestDTO) : ∀ e ∈ bgcolorErrs r, e.field = "bgcolor" := by
  intro e he
  unfold bgcolorErrs vdColor at he
  repeat' split at he
  all_goals simp_all

theorem marginErrs_field (r : RequestDTO) : ∀ e ∈ marginErrs r, e.field = "margin" := by
  intro e he
  unfold marginErrs vdMargin at he
  repeat' split at he
  all_goals simp_all

theorem qzoneErrs_field (r : RequestDTO) : ∀ e ∈ qzoneErrs r, e.field = "qzone" := by
  intro e he
  unfold qzoneErrs vdQzone at he
  repeat' split at he
  all_goals simp_all

theorem csErrs_field (r : RequestDTO) : ∀ e ∈ csErrs r, e.field = "charset-source" := by
  intro e he
  unfold csErrs vdCharset at he
  repeat' split at he
  all_goals simp_all

theorem ctErrs_field (r : RequestDTO) : ∀ e ∈ ctErrs r, e.field = "charset-target" := by
  intro e he
  unfold ctErrs vdCharset at he
  repeat' split at he
  all_goals simp_all

theorem logoErrs_field (r : RequestDTO) : ∀ e ∈ logoErrs r, e.field = "logo" := by
  intro e he
  unfold logoErrs vdLogo at he
  repeat' split at he
  all_goals simp_all

theorem contrastErrs_field (cok : ColorValue → ColorValue → Bool) (r : RequestDTO) :
    ∀ e ∈ contrastErrs cok r, e.field = "color_contrast" := by
  intro e he
  unfold contrastErrs vdContrast at he
  repeat' split at he
  all_goals simp_all

theorem logoSizeErrs_field (r : RequestDTO) : ∀ e ∈ logoSizeErrs r, e.field = "logo_size" := by
  intro e he
  unfold logoSizeErrs vdLogoSizeRel at he
  repeat' split at he
  all_goals simp_all

theorem errors_of_nonempty (cok : ColorValue → ColorValue → Bool) (uok : String → Bool)
    (r : RequestDTO) (h : executeErrors cok uok r ≠ []) :
    (validateExecute cok uok r).errors = executeErrors cok uok r ∧
      (validateExecute cok uok r).isValidFlag = false := by
  unfold validateExecute
  rw [if_neg (by simpa [List.isEmpty_iff] using h)]
  exact ⟨rfl, rfl⟩

theorem hasError_of_component (cok : ColorValue → ColorValue → Bool) (uok : String → Bool)
    (r : RequestDTO) (comp : List VError) (f : String)
    (hsub : ∀ e, e ∈ comp → e ∈ executeErrors cok uok r)
    (hf : ∀ e ∈ comp, e.field = f) (hne : comp ≠ []) :
    hasErrorForField (validateExecute cok uok r) f = true := by
  obtain ⟨e, he⟩ := List.exists_mem_of_ne_nil comp hne
  have hmem := hsub e he
  obtain ⟨herrs, -⟩ := errors_of_nonempty cok uok r (List.ne_nil_of_mem hmem)
  unfold hasErrorForField
  rw [herrs]
  exact List.any_eq_true.mpr ⟨e, hmem, by simp [hf e he]⟩

/-- C5: `ValidateParametersUseCase.execute` is valid exactly when every field
check passes; when checks fail, the result simultaneously carries an error
entry (with the field's name) for every failing field — never only the first —
and a missing or empty required `data` field contributes the dedicated
required-field entry rather than a parse error. -/
theorem c5_validation_accumulates (cok : ColorValue → ColorValue → Bool) (uok : String → Bool)
    (r : RequestDTO) :
    ((validateExecute cok uok r).isValidFlag = true ↔
      (dataErrs uok r = [] ∧ sizeErrs r = [] ∧ formatErrs r = [] ∧ eccErrs r = [] ∧
        colorErrs r = [] ∧ bgcolorErrs r = [] ∧ marginErrs r = [] ∧ qzoneErrs r = [] ∧
        csErrs r = [] ∧ ctErrs r = [] ∧ logoErrs r = [] ∧ contrastErrs cok r = [] ∧
        logoSizeErrs r = [])) ∧
      (dataErrs uok r ≠ [] → hasErrorForField (validateExecute cok uok r) "data" = true) ∧
      (sizeErrs r ≠ [] → hasErrorForField (validateExecute cok uok r) "size" = true) ∧
      (formatErrs r ≠ [] → hasErrorForField (validateExecute cok uok r) "format" = true) ∧
      (eccErrs r ≠ [] → hasErrorForField (validateExecute cok uok r) "ecc" = true) ∧
      (colorErrs r ≠ [] → hasErrorForField (validateExecute cok uok r) "color" = true) ∧
      (bgcolorErrs r ≠ [] → hasErrorForField (validateExecute cok uok r) "bgcolor" = true) ∧
      (marginErrs r ≠ [] → hasErrorForField (validateExecute cok uok r) "margin" = true) ∧
      (qzoneErrs r ≠ [] → hasErrorForField (validateExecute cok uok r) "qzone" = true) ∧
      (csErrs r ≠ [] → hasErrorForField (validateExecute cok uok r) "charset-source" = true) ∧
      (ctErrs r ≠ [] → hasErrorForField (validateExecute cok uok r) "charset-target" = true) ∧
      (logoErrs r ≠ [] → hasErrorForField (validateExecute cok uok r) "logo" = true) ∧
      (contrastErrs cok r ≠ [] →
        hasErrorForField (validateExecute cok uok r) "color_contrast" = true) ∧
      (logoSizeErrs r ≠ [] → hasErrorForField (validateExecute cok uok r) "logo_size" = true) ∧
      ((r.data = none ∨ r.data = some "") →
        (⟨"data", "Data field is required", VErrorType.REQUIRED_FIELD, VValue.noVal⟩ : VError) ∈
          (validateExecute cok uok r).errors) := by
  refine ⟨?_, ?_, ?_, ?_, ?_, ?_, ?_, ?_, ?_, ?_, ?_, ?_, ?_, ?_, ?_⟩
  · constructor
    · intro hvalid
      by_cases h : executeErrors cok uok r = []
      · unfold executeErrors at h
        simp only [List.append_eq_nil] at h
        tauto
      · obtain ⟨-, hflag⟩ := errors_of_nonempty cok uok r h
        rw [hflag] at hvalid
        exact absurd hvalid (by simp)
    · intro hcomps
      obtain ⟨h1, h2, h3, h4, h5, h6, h7, h8, h9, h10, h11, h12, h13⟩ := hcomps
      have h : executeErrors cok uok r = [] := by
        unfold executeErrors
        simp [h1, h2, h3, h4, h5, h6, h7, h8, h9, h10, h11, h12, h13]
      unfold validateExecute
      rw [if_pos (by simp [h])]
      rfl
  · intro hne
    exact hasError_of_component cok uok r (dataErrs uok r) "data"
      (fun e he => by unfold executeErrors; simp only [List.mem_append]; tauto)
      (dataErrs_field uok r) hne
  · intro hne
    exact hasError_of_component cok uok r (sizeErrs r) "size"
      (fun e he => by unfold executeErrors; simp only [List.mem_append]; tauto)
      (sizeErrs_field r) hne
  · intro hne
    exact hasError_of_component cok uok r (formatErrs r) "format"
      (fun e he => by unfold executeErrors; simp only [List.mem_append]; tauto)
      (formatErrs_field r) hne
  · intro hne
    exact hasError_of_component cok uok r (eccErrs r) "ecc"
      (fun e he => by unfold executeErrors; simp only [List.mem_append]; tauto)
      (eccErrs_field r) hne
  · intro hne
    exact hasError_of_component cok uok r (colorErrs r) "color"
      (fun e he => by unfold executeErrors; simp only [List.mem_append]; tauto)
      (colorErrs_field r) hne
  · intro hne
    exact hasError_of_component cok uok r (bgcolorErrs r) "bgcolor"
      (fun e he => by unfold executeErrors; simp only [List.mem_append]; tauto)
      (bgcolorErrs_field r) hne
  · intro hne
    exact hasError_of_component cok uok r (marginErrs r) "margin"
      (fun e he => by unfold executeErrors; simp only [List.mem_append]; tauto)
      (marginErrs_field r) hne
  · intro hne
    exact hasError_of_component cok uok r (qzoneErrs r) "qzone"
      (fun e he => by unfold executeErrors; simp only [List.mem_append]; tauto)
      (qzoneErrs_field r) hne
  · intro hne
    exact hasError_of_component cok uok r (csErrs r) "charset-source"
      (fun e he => by unfold executeErrors; simp only [List.mem_append]; tauto)
      (csErrs_field r) hne
  · intro hne
    exact hasError_of_component cok uok r (ctErrs r) "charset-target"
      (fun e he => by unfold executeErrors; simp only [List.mem_append]; tauto)
      (ctErrs_field r) hne
  · intro hne
    exact hasError_of_component cok uok r (logoErrs r) "logo"
      (fun e he => by unfold executeErrors; simp only [List.mem_append]; tauto)
      (logoErrs_field r) hne
  · intro hne
    exact hasError_of_component cok uok r (contrastErrs cok r) "color_contrast"
      (fun e he => by unfold executeErrors; simp only [List.mem_append]; tauto)
      (contrastErrs_field cok r) hne
  · intro hne
    exact hasError_of_component cok uok r (logoSizeErrs r) "logo_size"
      (fun e he => by unfold executeErrors; simp only [List.mem_append]; tauto)
      (logoSizeErrs_field r) hne
  · intro hd
    have hdata : dataErrs uok r =
        [⟨"data", "Data field is required", VErrorType.REQUIRED_FIELD, VValue.noVal⟩] := by
      unfold dataErrs vdData
      rcases hd with hd | hd <;> rw [hd]
      rfl
    have hmemdata :
        (⟨"data", "Data field is required", VErrorType.REQUIRED_FIELD, VValue.noVal⟩ : VError) ∈
          dataErrs uok r := by
      rw [hdata]
      simp
    have hmem :
        (⟨"data", "Data field is required", VErrorType.REQUIRED_FIELD, VValue.noVal⟩ : VError) ∈
          executeErrors cok uok r := by
      unfold executeErrors
      simp only [List.mem_append]
      tauto
    obtain ⟨herrs, -⟩ := errors_of_nonempty cok uok r (List.ne_nil_of_mem hmem)
    rw [herrs]
    exact hmem

/-- A request missing its required `data` field and carrying a malformed size
and format at once. -/
def c5Req : RequestDTO := { data := none, size := some "abc", format := some "bmp" }

/-- C5 witness: all three violations of `c5Req` surface simultaneously, with
the dedicated required-field entry for the missing `data`. -/
theorem c5_validation_accumulates_witness :
    hasErrorForField (validateExecute (fun _ _ => true) (fun _ => true) c5Req) "data" = true ∧
      hasErrorForField (validateExecute (fun _ _ => true) (fun _ => true) c5Req) "size" = true ∧
      hasErrorForField (validateExecute (fun _ _ => true) (fun _ => true) c5Req) "format" = true ∧
      (⟨"data", "Data field is required", VErrorType.REQUIRED_FIELD, VValue.noVal⟩ : VError) ∈
        (validateExecute (fun _ _ => true) (fun _ => true) c5Req).errors :=
  ⟨(c5_validation_accumulates (fun _ _ => true) (fun _ => true) c5Req).2.1 (by decide),
    (c5_validation_accumulates (fun _ _ => true) (fun _ => true) c5Req).2.2.1 (by decide),
    (c5_validation_accumulates (fun _ _ => true) (fun _ => true) c5Req).2.2.2.1 (by decide),
    (c5_validation_accumulates (fun _ _ => true) (fun _ => true)
      c5Req).2.2.2.2.2.2.2.2.2.2.2.2.2.2 (Or.inl rfl)⟩

/-! ## Claim C1: hash-key identity -/

theorem utf8Encode_lt (l : List Char) : ∀ x ∈ utf8Encode l, x < 256 := by
  induction l with
  | nil => simp [utf8Encode]
  | cons c cs ih =>
    intro x hx
    simp only [utf8Encode, List.mem_append] at hx
    rcases hx with hx | hx
    · exact utf8Bytes_lt c.toNat (char_toNat_lt c) x hx
    · exact ih x hx

theorem stringData_inj {s t : String} (h : s.data = t.data) : s = t := by
  cases s
  cases t
  exact congrArg String.mk h

theorem dataPayload_content_inj {d1 d2 : DataPayload} (h : d1.content = d2.content) : d1 = d2 := by
  cases d1
  cases d2
  exact congrArg DataPayload.mk h

/-- An RGB triple with all components in byte range, as `ColorValue.create`
guarantees. -/
def colorInRange (c : ColorValue) : Prop := c.r < 256 ∧ c.g < 256 ∧ c.b < 256

theorem colorHexChars_inj {c1 c2 : ColorValue} (h1 : colorInRange c1) (h2 : colorInRange c2)
    (h : colorHexChars c1 = colorHexChars c2) : c1 = c2 := by
  unfold colorHexChars at h
  simp only [List.cons.injEq, true_and] at h
  obtain ⟨h12, h3⟩ := List.append_inj h (by simp [hexByte])
  obtain ⟨hr, hg⟩ := List.append_inj h12 (by simp [hexByte])
  have er := hexByte_inj h1.1 h2.1 hr
  have eg := hexByte_inj h1.2.1 h2.2.1 hg
  have eb := hexByte_inj h1.2.2 h2.2.2 h3
  cases c1
  cases c2
  simp_all

theorem sizeToString_inj {s1 s2 : Size} (h : sizeToString s1 = sizeToString s2) : s1 = s2 := by
  unfold sizeToString at h
  obtain ⟨hw, hh⟩ :=
    sep_split_inj (fun hm => intStr_not_x _ _ hm rfl) (fun hm => intStr_not_x _ _ hm rfl) h
  have ew := intStr_inj hw
  have eh := intStr_inj hh
  cases s1
  cases s2
  simp_all

theorem formatStr_inj {f1 f2 : OutputFormat} (h : formatStr f1 = formatStr f2) : f1 = f2 := by
  cases f1 <;> cases f2 <;> first | rfl | exact absurd h (by decide)

theorem eccStr_inj {e1 e2 : ECCLevel} (h : eccStr e1 = eccStr e2) : e1 = e2 := by
  cases e1 <;> cases e2 <;> first | rfl | exact absurd h (by decide)

/-- Both colors of a configuration are in byte range (always true for
configurations built from `ColorValue.create`/`black()`/`white()`). -/
def colorsOk (c : QRConfig) : Prop := colorInRange c.fg ∧ colorInRange c.bg

/-- Exactly one of the ten canonical fields differs. -/
def DiffersInOneField (a b : QRConfig) : Prop :=
  (a.data ≠ b.data ∧ a.size = b.size ∧ a.format = b.format ∧ a.ecc = b.ecc ∧ a.fg = b.fg ∧
    a.bg = b.bg ∧ a.margin = b.margin ∧ a.quietZone = b.quietZone ∧
    a.charsetSource = b.charsetSource ∧ a.charsetTarget = b.charsetTarget) ∨
  (a.data = b.data ∧ a.size ≠ b.size ∧ a.format = b.format ∧ a.ecc = b.ecc ∧ a.fg = b.fg ∧
    a.bg = b.bg ∧ a.margin = b.margin ∧ a.quietZone = b.quietZone ∧
    a.charsetSource = b.charsetSource ∧ a.charsetTarget = b.charsetTarget) ∨
  (a.data = b.data ∧ a.size = b.size ∧ a.format ≠ b.format ∧ a.ecc = b.ecc ∧ a.fg = b.fg ∧
    a.bg = b.bg ∧ a.margin = b.margin ∧ a.quietZone = b.quietZone ∧
    a.charsetSource = b.charsetSource ∧ a.charsetTarget = b.charsetTarget) ∨
  (a.data = b.data ∧ a.size = b.size ∧ a.format = b.format ∧ a.ecc ≠ b.ecc ∧ a.fg = b.fg ∧
    a.bg = b.bg ∧ a.margin = b.margin ∧ a.quietZone = b.quietZone ∧
    a.charsetSource = b.charsetSource ∧ a.charsetTarget = b.charsetTarget) ∨
  (a.data = b.data ∧ a.size = b.size ∧ a.format = b.format ∧ a.ecc = b.ecc ∧ a.fg ≠ b.fg ∧
    a.bg = b.bg ∧ a.margin = b.margin ∧ a.quietZone = b.quietZone ∧
    a.charsetSource = b.charsetSource ∧ a.charsetTarget = b.charsetTarget) ∨
  (a.data = b.data ∧ a.size = b.size ∧ a.format = b.format ∧ a.ecc = b.ecc ∧ a.fg = b.fg ∧
    a.bg ≠ b.bg ∧ a.margin = b.margin ∧ a.quietZone = b.quietZone ∧
    a.charsetSource = b.charsetSource ∧ a.charsetTarget = b.charsetTarget) ∨
  (a.data = b.data ∧ a.size = b.size ∧ a.format = b.format ∧ a.ecc = b.ecc ∧ a.fg = b.fg ∧
    a.bg = b.bg ∧ a.margin ≠ b.margin ∧ a.quietZone = b.quietZone ∧
    a.charsetSource = b.charsetSource ∧ a.charsetTarget = b.charsetTarget) ∨
  (a.data = b.data ∧ a.size = b.size ∧ a.format = b.format ∧ a.ecc = b.ecc ∧ a.fg = b.fg ∧
    a.bg = b.bg ∧ a.margin = b.margin ∧ a.quietZone ≠ b.quietZone ∧
    a.charsetSource = b.charsetSource ∧ a.charsetTarget = b.charsetTarget) ∨
  (a.data = b.data ∧ a.size = b.size ∧ a.format = b.format ∧ a.ecc = b.ecc ∧ a.fg = b.fg ∧
    a.bg = b.bg ∧ a.margin = b.margin ∧ a.quietZone = b.quietZone ∧
    a.charsetSource ≠ b.charsetSource ∧ a.charsetTarget = b.charsetTarget) ∨
  (a.data = b.data ∧ a.size = b.size ∧ a.format = b.format ∧ a.ecc = b.ecc ∧ a.fg = b.fg ∧
    a.bg = b.bg ∧ a.margin = b.margin ∧ a.quietZone = b.quietZone ∧
    a.charsetSource = b.charsetSource ∧ a.charsetTarget ≠ b.charsetTarget)

set_option maxHeartbeats 1000000 in
/-- C1: `getHashKey` is a pure function of the ten canonical fields — equal
configurations always yield the identical key — and two byte-range-color
configurations that differ in exactly one canonical field always yield
different keys (base64 and UTF-8 are injective, the `|`-joined component list
determines every component when only one differs, and every field's canonical
string form is injective). -/
theorem c1_hashKey_identity (a b : QRConfig) (ha : colorsOk a) (hb : colorsOk b) :
    (a = b → getHashKey a = getHashKey b) ∧
      (DiffersInOneField a b → getHashKey a ≠ getHashKey b) := by
  refine ⟨fun h => by rw [h], ?_⟩
  intro hdiff heq
  have hdata : b64Encode (utf8Encode (joinBar (hashComponents a))) =
      b64Encode (utf8Encode (joinBar (hashComponents b))) := congrArg String.data heq
  have hutf : utf8Encode (joinBar (hashComponents a)) = utf8Encode (joinBar (hashComponents b)) :=
    b64Encode_inj _ _ (utf8Encode_lt _) (utf8Encode_lt _) hdata
  have hjoin : joinBar (hashComponents a) = joinBar (hashComponents b) :=
    utf8Encode_inj _ _ hutf
  simp only [hashComponents, joinBar] at hjoin
  rcases hdiff with
    ⟨hne, e2, e3, e4, e5, e6, e7, e8, e9, e10⟩ | ⟨e1, hne, e3, e4, e5, e6, e7, e8, e9, e10⟩ |
    ⟨e1, e2, hne, e4, e5, e6, e7, e8, e9, e10⟩ | ⟨e1, e2, e3, hne, e5, e6, e7, e8, e9, e10⟩ |
    ⟨e1, e2, e3, e4, hne, e6, e7, e8, e9, e10⟩ | ⟨e1, e2, e3, e4, e5, hne, e7, e8, e9, e10⟩ |
    ⟨e1, e2, e3, e4, e5, e6, hne, e8, e9, e10⟩ | ⟨e1, e2, e3, e4, e5, e6, e7, hne, e9, e10⟩ |
    ⟨e1, e2, e3, e4, e5, e6, e7, e8, hne, e10⟩ | ⟨e1, e2, e3, e4, e5, e6, e7, e8, e9, hne⟩
  · rw [e2, e3, e4, e5, e6, e7, e8, e9, e10] at hjoin
    exact hne (dataPayload_content_inj (stringData_inj (cancel_tail hjoin)))
  · rw [e1, e3, e4, e5, e6, e7, e8, e9, e10] at hjoin
    exact hne (sizeToString_inj (cancel_tail (cancel_head hjoin)))
  · rw [e1, e2, e4, e5, e6, e7, e8, e9, e10] at hjoin
    exact hne (formatStr_inj (cancel_tail (cancel_head (cancel_head hjoin))))
  · rw [e1, e2, e3, e5, e6, e7, e8, e9, e10] at hjoin
    exact hne (eccStr_inj (cancel_tail (cancel_head (cancel_head (cancel_head hjoin)))))
  · rw [e1, e2, e3, e4, e6, e7, e8, e9, e10] at hjoin
    exact hne (colorHexChars_inj ha.1 hb.1
      (cancel_tail (cancel_head (cancel_head (cancel_head (cancel_head hjoin))))))
  · rw [e1, e2, e3, e4, e5, e7, e8, e9, e10] at hjoin
    exact hne (colorHexChars_inj ha.2 hb.2
      (cancel_tail (cancel_head (cancel_head (cancel_head (cancel_head (cancel_head hjoin)))))))
  · rw [e1, e2, e3, e4, e5, e6, e8, e9, e10] at hjoin
    exact hne (intStr_inj (cancel_tail (cancel_head (cancel_head (cancel_head (cancel_head
      (cancel_head (cancel_head hjoin))))))))
  · rw [e1, e2, e3, e4, e5, e6, e7, e9, e10] at hjoin
    exact hne (intStr_inj (cancel_tail (cancel_head (cancel_head (cancel_head (cancel_head
      (cancel_head (cancel_head (cancel_head hjoin)))))))))
  · rw [e1, e2, e3, e4, e5, e6, e7, e8, e10] at hjoin
    exact hne (stringData_inj (cancel_tail (cancel_head (cancel_head (cancel_head (cancel_head
      (cancel_head (cancel_head (cancel_head (cancel_head hjoin))))))))))
  · rw [e1, e2, e3, e4, e5, e6, e7, e8, e9] at hjoin
    exact hne (stringData_inj (cancel_head (cancel_head (cancel_head (cancel_head (cancel_head
      (cancel_head (cancel_head (cancel_head (cancel_head hjoin))))))))))

/-- The default configuration of the example request, and the same with only
the margin changed. -/
def c1CfgA : QRConfig :=
  ⟨⟨"hello"⟩, ⟨200, 200⟩, .png, .L, colorBlack, colorWhite, 1, 0, "UTF-8", "UTF-8"⟩

def c1CfgB : QRConfig :=
  ⟨⟨"hello"⟩, ⟨200, 200⟩, .png, .L, colorBlack, colorWhite, 2, 0, "UTF-8", "UTF-8"⟩

/-- C1 witness: identical configurations agree, a one-field (margin) change
flips the key. -/
theorem c1_hashKey_identity_witness :
    getHashKey c1CfgA = getHashKey c1CfgA ∧ getHashKey c1CfgA ≠ getHashKey c1CfgB :=
  ⟨(c1_hashKey_identity c1CfgA c1CfgA (by unfold colorsOk colorInRange; decide)
      (by unfold colorsOk colorInRange; decide)).1 rfl,
    (c1_hashKey_identity c1CfgA c1CfgB (by unfold colorsOk colorInRange; decide)
      (by unfold colorsOk colorInRange; decide)).2 (Or.inr (Or.inr (Or.inr (Or.inr (Or.inr (Or.inr (Or.inl
        ⟨rfl, rfl, rfl, rfl, rfl, rfl, by decide, rfl, rfl, rfl⟩)))))))⟩

/-! ### Supporting analysis for the eviction scan and the capacity bound -/

theorem foldl_oldestStep_some_le {α : Type} :
    ∀ (l : List (String × CacheEntry α)) (k0 : String) (t0 : Nat) (k : String) (t : Nat),
      l.foldl oldestStep (some (k0, t0)) = some (k, t) → t ≤ t0 := by
  intro l
  induction l with
  | nil =>
    intro k0 t0 k t h
    simp only [List.foldl_nil, Option.some.injEq, Prod.mk.injEq] at h
    omega
  | cons q rest ih =>
    intro k0 t0 k t h
    simp only [List.foldl_cons, oldestStep] at h
    split at h
    · have := ih _ _ _ _ h
      omega
    · exact ih _ _ _ _ h

theorem foldl_oldestStep_minimal {α : Type} :
    ∀ (l : List (String × CacheEntry α)) (acc : Option (String × Nat)) (k : String) (t : Nat),
      l.foldl oldestStep acc = some (k, t) → ∀ p ∈ l, t ≤ p.2.createdAt := by
  intro l
  induction l with
  | nil =>
    intro acc k t h p hp
    simp at hp
  | cons q rest ih =>
    intro acc k t h p hp
    simp only [List.foldl_cons] at h
    rcases List.mem_cons.mp hp with hp | hp
    · subst hp
      cases acc with
      | none =>
        have h' : rest.foldl oldestStep (some (p.1, p.2.createdAt)) = some (k, t) := h
        have := foldl_oldestStep_some_le rest _ _ _ _ h'
        omega
      | some a =>
        obtain ⟨k0, t0⟩ := a
        by_cases hlt : p.2.createdAt < t0
        · have h' : rest.foldl oldestStep (some (p.1, p.2.createdAt)) = some (k, t) := by
            simpa [oldestStep, hlt] using h
          have := foldl_oldestStep_some_le rest _ _ _ _ h'
          omega
        · have h' : rest.foldl oldestStep (some (k0, t0)) = some (k, t) := by
            simpa [oldestStep, hlt] using h
          have := foldl_oldestStep_some_le rest _ _ _ _ h'
          omega
    · exact ih _ _ _ h p hp

theorem foldl_oldestStep_mem {α : Type} :
    ∀ (l : List (String × CacheEntry α)) (acc : Option (String × Nat)) (k : String) (t : Nat),
      l.foldl oldestStep acc = some (k, t) →
        acc = some (k, t) ∨ ∃ e : CacheEntry α, (k, e) ∈ l ∧ e.createdAt = t := by
  intro l
  induction l with
  | nil =>
    intro acc k t h
    simp only [List.foldl_nil] at h
    exact Or.inl h
  | cons q rest ih =>
    intro acc k t h
    simp only [List.foldl_cons] at h
    rcases ih _ _ _ h with hstep | ⟨e, hmem, het⟩
    · cases acc with
      | none =>
        simp only [oldestStep, Option.some.injEq, Prod.mk.injEq] at hstep
        right
        refine ⟨q.2, ?_, hstep.2⟩
        rw [← hstep.1]
        exact List.mem_cons_self _ _
      | some a =>
        obtain ⟨k0, t0⟩ := a
        simp only [oldestStep] at hstep
        split at hstep
        · simp only [Option.some.injEq, Prod.mk.injEq] at hstep
          right
          refine ⟨q.2, ?_, hstep.2⟩
          rw [← hstep.1]
          exact List.mem_cons_self _ _
        · exact Or.inl hstep
    · exact Or.inr ⟨e, List.mem_cons_of_mem _ hmem, het⟩

theorem foldl_oldestStep_isSome {α : Type} :
    ∀ (l : List (String × CacheEntry α)) (acc : Option (String × Nat)),
      acc.isSome = true → (l.foldl oldestStep acc).isSome = true := by
  intro l
  induction l with
  | nil =>
    intro acc h
    simpa using h
  | cons q rest ih =>
    intro acc h
    simp only [List.foldl_cons]
    apply ih
    cases acc with
    | none => simp at h
    | some a =>
      obtain ⟨k0, t0⟩ := a
      simp only [oldestStep]
      split <;> rfl

theorem oldestKey_isSome {α : Type} {l : List (String × CacheEntry α)} (h : l ≠ []) :
    (oldestKey l).isSome = true := by
  cases l with
  | nil => exact absurd rfl h
  | cons q rest =>
    unfold oldestKey
    have hstep : List.foldl oldestStep none (q :: rest) =
        List.foldl oldestStep (some (q.1, q.2.createdAt)) rest := rfl
    rw [hstep]
    have hs := foldl_oldestStep_isSome rest (some (q.1, q.2.createdAt)) rfl
    cases hv : List.foldl oldestStep (some (q.1, q.2.createdAt)) rest with
    | none =>
      rw [hv] at hs
      simp at hs
    | some a => simp

/-- The key produced by the eviction scan belongs to the map and has minimal
`createdAt`. -/
theorem oldestKey_spec {α : Type} {l : List (String × CacheEntry α)} {k : String}
    (h : oldestKey l = some k) :
    ∃ e : CacheEntry α, (k, e) ∈ l ∧ ∀ p ∈ l, e.createdAt ≤ p.2.createdAt := by
  unfold oldestKey at h
  cases hf : l.foldl oldestStep none with
  | none =>
    rw [hf] at h
    simp at h
  | some a =>
    obtain ⟨k', t⟩ := a
    rw [hf] at h
    simp only [Option.map] at h
    rw [Option.some.injEq] at h
    subst h
    rcases foldl_oldestStep_mem l none k' t hf with hacc | ⟨e, hmem, het⟩
    · simp at hacc
    · refine ⟨e, hmem, ?_⟩
      intro p hp
      have := foldl_oldestStep_minimal l none k' t hf p hp
      omega

theorem mapLookup_isSome_of_mem {α : Type} :
    ∀ {l : List (String × CacheEntry α)} {k : String} {e : CacheEntry α},
      (k, e) ∈ l → (mapLookup l k).isSome = true := by
  intro l
  induction l with
  | nil =>
    intro k e h
    simp at h
  | cons q rest ih =>
    intro k e h
    obtain ⟨k', e'⟩ := q
    unfold mapLookup
    by_cases hk : k' = k
    · rw [if_pos hk]
      rfl
    · rw [if_neg hk]
      rcases List.mem_cons.mp h with h | h
      · exact absurd (congrArg Prod.fst h).symm hk
      · exact ih h

theorem mapDelete_length_of_mem {α : Type} :
    ∀ {l : List (String × CacheEntry α)} {k : String},
      (mapLookup l k).isSome = true → (mapDelete l k).length + 1 = l.length := by
  intro l
  induction l with
  | nil =>
    intro k h
    simp [mapLookup] at h
  | cons q rest ih =>
    intro k h
    obtain ⟨k', e'⟩ := q
    unfold mapLookup at h
    unfold mapDelete
    by_cases hk : k' = k
    · rw [if_pos hk]
      rfl
    · rw [if_neg hk] at h ⊢
      simp only [List.length_cons]
      rw [← ih h]

theorem mapLookup_mapDelete_none {α : Type} :
    ∀ {l : List (String × CacheEntry α)} {k k' : String},
      mapLookup l k = none → mapLookup (mapDelete l k') k = none := by
  intro l
  induction l with
  | nil =>
    intro k k' _
    rfl
  | cons q rest ih =>
    intro k k' h
    obtain ⟨k0, e0⟩ := q
    unfold mapLookup at h
    unfold mapDelete
    by_cases h0 : k0 = k
    · rw [if_pos h0] at h
      simp at h
    · rw [if_neg h0] at h
      by_cases h1 : k0 = k'
      · rw [if_pos h1]
        exact h
      · rw [if_neg h1]
        unfold mapLookup
        rw [if_neg h0]
        exact ih h

theorem mapSet_length_present {α : Type} :
    ∀ {l : List (String × CacheEntry α)} {k : String} (e : CacheEntry α),
      (mapLookup l k).isSome = true → (mapSet l k e).length = l.length := by
  intro l
  induction l with
  | nil =>
    intro k e h
    simp [mapLookup] at h
  | cons q rest ih =>
    intro k e h
    obtain ⟨k', e'⟩ := q
    unfold mapLookup at h
    unfold mapSet
    by_cases hk : k' = k
    · rw [if_pos hk]
      rfl
    · rw [if_neg hk] at h ⊢
      simp only [List.length_cons]
      rw [ih e h]

theorem mapSet_length_new {α : Type} :
    ∀ {l : List (String × CacheEntry α)} {k : String} (e : CacheEntry α),
      mapLookup l k = none → (mapSet l k e).length = l.length + 1 := by
  intro l
  induction l with
  | nil =>
    intro k e _
    rfl
  | cons q rest ih =>
    intro k e h
    obtain ⟨k', e'⟩ := q
    unfold mapLookup at h
    unfold mapSet
    by_cases hk : k' = k
    · rw [if_pos hk] at h
      simp at h
    · rw [if_neg hk] at h ⊢
      simp only [List.length_cons]
      rw [ih e h]

theorem mapSet_keys {α : Type} :
    ∀ {l : List (String × CacheEntry α)} {k : String} {e : CacheEntry α}
      {p : String × CacheEntry α}, p ∈ mapSet l k e → p.1 = k ∨ p ∈ l := by
  intro l
  induction l with
  | nil =>
    intro k e p h
    simp only [mapSet, List.mem_singleton] at h
    subst h
    exact Or.inl rfl
  | cons q rest ih =>
    intro k e p h
    obtain ⟨k', e'⟩ := q
    unfold mapSet at h
    by_cases hk : k' = k
    · rw [if_pos hk] at h
      rcases List.mem_cons.mp h with h | h
      · subst h
        exact Or.inl rfl
      · exact Or.inr (List.mem_cons_of_mem _ h)
    · rw [if_neg hk] at h
      rcases List.mem_cons.mp h with h | h
      · subst h
        exact Or.inr (List.mem_cons_self _ _)
      · rcases ih h with h | h
        · exact Or.inl h
        · exact Or.inr (List.mem_cons_of_mem _ h)

theorem mapDelete_subset {α : Type} :
    ∀ {l : List (String × CacheEntry α)} {k : String} {p : String × CacheEntry α},
      p ∈ mapDelete l k → p ∈ l := by
  intro l
  induction l with
  | nil =>
    intro k p h
    simp [mapDelete] at h
  | cons q rest ih =>
    intro k p h
    obtain ⟨k', e'⟩ := q
    unfold mapDelete at h
    by_cases hk : k' = k
    · rw [if_pos hk] at h
      exact List.mem_cons_of_mem _ h
    · rw [if_neg hk] at h
      rcases List.mem_cons.mp h with h | h
      · subst h
        exact List.mem_cons_self _ _
      · exact List.mem_cons_of_mem _ (ih h)

/-- The bounded-capacity invariant together with non-emptiness of all keys. -/
def CacheInv {α : Type} (maxKeys : Nat) (st : CacheState α) : Prop :=
  st.entries.length ≤ maxKeys ∧ ∀ p ∈ st.entries, p.1 ≠ ""

theorem repoSet_preserves_inv {α : Type} (maxKeys defaultTTL now : Nat) (k : String) (v : α)
    (ttl : Option Nat) (st : CacheState α) (hmax : 1 ≤ maxKeys) (hk : k ≠ "")
    (hinv : CacheInv maxKeys st) :
    CacheInv maxKeys (repoSet maxKeys defaultTTL now k v ttl st) := by
  obtain ⟨hlen, hkeys⟩ := hinv
  unfold repoSet
  by_cases hcond : st.entries.length ≥ maxKeys ∧ (mapLookup st.entries k).isNone = true
  · rw [if_pos hcond]
    have hne : st.entries ≠ [] := by
      intro h0
      rw [h0] at hcond
      simp at hcond
      omega
    have hsome := oldestKey_isSome hne
    cases hok : oldestKey st.entries with
    | none =>
      rw [hok] at hsome
      simp at hsome
    | some k0 =>
      obtain ⟨e0, hmem0, -⟩ := oldestKey_spec hok
      have hk0 : k0 ≠ "" := hkeys (k0, e0) hmem0
      unfold evictOldest
      rw [hok]
      dsimp only
      rw [if_pos hk0]
      dsimp only
      constructor
      · have hdel := mapDelete_length_of_mem (mapLookup_isSome_of_mem hmem0)
        have hnone : mapLookup (mapDelete st.entries k0) k = none :=
          mapLookup_mapDelete_none (Option.isNone_iff_eq_none.mp hcond.2)
        rw [mapSet_length_new _ hnone]
        omega
      · intro p hp
        rcases mapSet_keys hp with h | h
        · rw [h]
          exact hk
        · exact hkeys p (mapDelete_subset h)
  · rw [if_neg hcond]
    dsimp only
    constructor
    · by_cases hlook : (mapLookup st.entries k).isNone = true
      · have hlt : ¬ st.entries.length ≥ maxKeys := fun hge => hcond ⟨hge, hlook⟩
        rw [mapSet_length_new _ (Option.isNone_iff_eq_none.mp hlook)]
        omega
      · have hs : (mapLookup st.entries k).isSome = true := by
          cases hml : mapLookup st.entries k with
          | none =>
            rw [hml] at hlook
            simp at hlook
          | some _ => rfl
        rw [mapSet_length_present _ hs]
        exact hlen
    · intro p hp
      rcases mapSet_keys hp with h | h
      · rw [h]
        exact hk
      · exact hkeys p h

theorem applyOp_preserves_inv {α : Type} (maxKeys defaultTTL : Nat) (st : CacheState α)
    (op : CacheOp α) (hmax : 1 ≤ maxKeys)
    (hop : match op with | .set _ k _ _ => k ≠ "" | _ => True)
    (hinv : CacheInv maxKeys st) : CacheInv maxKeys (applyOp maxKeys defaultTTL st op) := by
  cases op with
  | set now k v ttl =>
    exact repoSet_preserves_inv maxKeys defaultTTL now k v ttl st hmax hop hinv
  | del k =>
    obtain ⟨hlen, hkeys⟩ := hinv
    unfold applyOp repoDelete
    dsimp only
    cases hml : mapLookup st.entries k with
    | none => exact ⟨hlen, hkeys⟩
    | some e =>
      refine ⟨?_, ?_⟩
      · show (mapDelete st.entries k).length ≤ maxKeys
        have hdel := mapDelete_length_of_mem (l := st.entries) (k := k) (by rw [hml]; rfl)
        omega
      · intro p hp
        exact hkeys p (mapDelete_subset hp)
  | clear =>
    refine ⟨?_, ?_⟩
    · simp [applyOp, repoClear, emptyCache]
    · intro p hp
      simp [applyOp, repoClear, emptyCache] at hp

theorem applyOps_preserves_inv {α : Type} (maxKeys defaultTTL : Nat) (hmax : 1 ≤ maxKeys) :
    ∀ (ops : List (CacheOp α)) (st : CacheState α),
      (∀ op ∈ ops, match op with | .set _ k _ _ => k ≠ "" | _ => True) →
      CacheInv maxKeys st → CacheInv maxKeys (applyOps maxKeys defaultTTL ops st) := by
  intro ops
  induction ops with
  | nil =>
    intro st _ h
    exact h
  | cons op rest ih =>
    intro st hops hinv
    show CacheInv maxKeys (applyOps maxKeys defaultTTL rest (applyOp maxKeys defaultTTL st op))
    exact ih _ (fun o ho => hops o (List.mem_cons_of_mem _ ho))
      (applyOp_preserves_inv maxKeys defaultTTL st op hmax (hops op (List.mem_cons_self _ _))
        hinv)

/-- With non-empty keys the capacity bound of the claim does hold: starting
from the empty store, any sequence of set/delete/clear operations keeps at
most `maxKeys` entries.  (The empty-string key of
`c6_empty_key_breaks_capacity` is the only way to break it.) -/
theorem cache_capacity_bound_nonempty_keys (α : Type) (maxKeys defaultTTL : Nat)
    (hmax : 1 ≤ maxKeys) (ops : List (CacheOp α))
    (hops : ∀ op ∈ ops, match op with | .set _ k _ _ => k ≠ "" | _ => True) :
    (applyOps maxKeys defaultTTL ops (emptyCache α)).entries.length ≤ maxKeys :=
  (applyOps_preserves_inv maxKeys defaultTTL hmax ops (emptyCache α) hops
    ⟨by simp [emptyCache], by simp [emptyCache]⟩).1

/-- When the store is at capacity, the key is new, and all stored keys are
non-empty, `set` evicts exactly an entry with minimal `createdAt` — never a
newer one — before inserting. -/
theorem repoSet_evicts_minimal {α : Type} (maxKeys defaultTTL now : Nat) (k : String) (v : α)
    (ttl : Option Nat) (st : CacheState α)
    (hfull : maxKeys ≤ st.entries.length) (hnew : mapLookup st.entries k = none)
    (hne : st.entries ≠ []) (hkeys : ∀ p ∈ st.entries, p.1 ≠ "") :
    ∃ kmin emin, (kmin, emin) ∈ st.entries ∧
      (∀ p ∈ st.entries, emin.createdAt ≤ p.2.createdAt) ∧
      (repoSet maxKeys defaultTTL now k v ttl st).entries =
        mapSet (mapDelete st.entries kmin) k
          ⟨v, now + jsOrNat ttl defaultTTL * 1000, now⟩ := by
  have hsome := oldestKey_isSome hne
  cases hok : oldestKey st.entries with
  | none =>
    rw [hok] at hsome
    simp at hsome
  | some k0 =>
    obtain ⟨e0, hmem0, hmin0⟩ := oldestKey_spec hok
    refine ⟨k0, e0, hmem0, hmin0, ?_⟩
    unfold repoSet
    rw [if_pos ⟨hfull, by rw [hnew]; rfl⟩]
    unfold evictOldest
    rw [hok]
    dsimp only
    rw [if_pos (show k0 ≠ "" from hkeys (k0, e0) hmem0)]
